import Mathlib

/-!
Verification development for the EEEMCal_Analysis repository.

The development shallowly embeds the relevant parts of the Python sources:

* `FindCenter` — DESY_beam_test_analysis/DESY_crystal_center_positions/find_center.py
* `DAQ`        — 009_IntInjection_2V5.py
* `AmpHists`   — Test_LED_Analysis/Res_amplitude/plot_all_amplitude_hists.py
* `ResArea`    — Test_LED_Analysis/Res_area/plot_hist_area.py
* `OscRes`     — Test_LED_oscilloscope_Analysis/plot_resolution_vs_voltage.py
* `TLAHist`    — Test_LED_Analysis/plot_hist_area.py
* `TLARes`     — Test_LED_Analysis/plot_resolution_vs_voltage.py

Machine floats are modelled by exact rationals (ℚ); every quantity handled by
the scripts in the claims below is a small dyadic rational, so the modelled
arithmetic is exact.  External library calls (ROOT fits, caliblib data taking,
packetlib transport) are modelled as explicit oracle parameters: the scripts
only consume their results.
-/

namespace Py

/-- Python `int(q)` on a float: truncation toward zero. -/
def pyInt (q : ℚ) : ℤ := if 0 ≤ q then ⌊q⌋ else -⌊-q⌋

/-- Python `a % b` on floats for `b > 0`: `a - b * floor (a / b)`. -/
def pyMod (a b : ℚ) : ℚ := a - b * (⌊a / b⌋ : ℤ)

/-- Whether `n` is a leading segment of `hay`. -/
def listPre [DecidableEq α] : List α → List α → Bool
  | [], _ => true
  | _ :: _, [] => false
  | a :: as, b :: bs => a = b && listPre as bs

/-- Whether `n` occurs contiguously inside `hay`. -/
def listSub [DecidableEq α] (n : List α) : List α → Bool
  | [] => listPre n []
  | b :: bs => listPre n (b :: bs) || listSub n bs

/-- Python `needle in hay` on strings. -/
def pyIn (needle hay : String) : Bool := listSub needle.data hay.data

/-- Replace every occurrence of the character `c` by the segment `r`;
Python `s.replace(c, r)` for a one-character pattern. -/
def replChar (c : Char) (r : List Char) : List Char → List Char
  | [] => []
  | a :: as => (if a = c then r else [a]) ++ replChar c r as

/-- Python `s.split(c)` for a one-character separator. -/
def splitChar (c : Char) : List Char → List (List Char)
  | [] => [[]]
  | a :: as =>
    let r := splitChar c as
    if a = c then [] :: r
    else
      match r with
      | [] => [[a]]
      | g :: gs => (a :: g) :: gs

/-- Python `int(s)` on the all-digit strings appearing in register keys;
`none` models the ValueError raised on anything else. -/
def digitsToNat (cs : List Char) : Option ℕ :=
  if cs ≠ [] && cs.all (fun c => c.isDigit) then
    some (cs.foldl (fun n c => 10 * n + (c.toNat - 48)) 0)
  else none

/-- Python list assignment `l[i] = v`; `none` models the IndexError on an
out-of-range index. -/
def pySet (l : List α) (i : ℕ) (v : α) : Option (List α) :=
  if i < l.length then some (l.set i v) else none

/-- Stable insertion of `a` into a sorted list: `a` is placed before the first
element it compares `le` to, so ties keep their original order. -/
def sIns (le : α → α → Bool) (a : α) : List α → List α
  | [] => [a]
  | b :: bs => if le a b then a :: b :: bs else b :: sIns le a bs

/-- Stable sort by the boolean preorder `le`; for a total preorder this agrees
with Python's stable `sorted`. -/
def sSort (le : α → α → Bool) : List α → List α
  | [] => []
  | a :: as => sIns le a (sSort le as)

/-- Python float division; `.error` models the ZeroDivisionError. -/
def pydiv (a b : ℚ) : Except String ℚ :=
  if b = 0 then .error ("ZeroDivisionError") else .ok (a / b)

/-- One CSV field as the readers see it: a float value, a NaN, or a field
`float()` rejects. -/
inductive Field where
  | num : ℚ → Field
  | nan : Field
  | bad : Field
deriving DecidableEq

end Py

namespace FindCenter

/-- Names bound at module level of find_center.py before the first
`analyze_run` call (imports, tables, functions and the scan constants);
none of `mean`, `mean_err`, `sigma` is among them, and none of them is a
Python builtin either. -/
def moduleGlobals : List String :=
  ["ROOT", "os", "array", "DATA_DIR", "TREE_NAME",
   "run_to_pos_vertical", "run_to_pos_horizontal", "crystal_map",
   "fpga_index", "port_maps", "make_crystalball", "crystal_channels",
   "analyze_run", "extract_center", "crystal_number", "calib",
   "FIT_MIN_H", "FIT_MAX_H", "FIT_MIN_V", "FIT_MAX_V",
   "OUTPUT_DIR", "channels", "peak_H", "run"]

/-- Parameters and local variables of `analyze_run` that have been assigned
by the time line 175 (`latex.DrawLatex(..., f"Mean = {mean:.2f} ...")`)
executes.  No assignment to `mean`, `mean_err` or `sigma` exists anywhere in
the function (the Crystal Ball `cb` is built but `h.Fit(cb)` is never
called). -/
def analyzeRunScope : List String :=
  ["run", "channels", "fit_min", "fit_max", "prefix",
   "path", "f", "tree", "h", "event", "s", "cb", "peak_bin", "peak_x",
   "c", "latex"]

/-- Python name resolution at line 175 of find_center.py: locals, then module
globals. -/
def nameBound (n : String) : Bool :=
  analyzeRunScope.contains n || moduleGlobals.contains n

/-- Names the statement at line 175 reads, in evaluation order. -/
def drawLatexNames : List String := ["latex", "mean", "mean_err"]

/-- Outcome of one `analyze_run` call. -/
inductive RunOutcome where
  | skipped : RunOutcome
  | nameError : String → RunOutcome
  | returned : RunOutcome
deriving DecidableEq

/-- Control flow of `analyze_run` (find_center.py lines 126–184): the three
guard branches return None; otherwise execution reaches line 175, whose
f-string raises NameError at the first unbound name it reads. -/
def analyze_run (fileExists opensOk hasTree : Bool) : RunOutcome :=
  if fileExists = false then .skipped
  else if opensOk = false then .skipped
  else if hasTree = false then .skipped
  else
    match drawLatexNames.find? (fun n => !nameBound n) with
    | some n => .nameError n
    | none => .returned

/-- Boolean `≤` on ℕ, the key order used by `sorted` on run numbers. -/
def natLe (a b : ℕ) : Bool := Nat.ble a b

/-- Python `sorted` on a list of run numbers. -/
def sortNat (l : List ℕ) : List ℕ := Py.sSort natLe l

/-- Keys of a Python dict modelled as an association list. -/
def dictKeys (d : List (ℕ × α)) : List ℕ := d.map Prod.fst

/-- Python `d[r]` for a key known to be present (default is never reached in
the modelled calls). -/
def dget [Inhabited α] (d : List (ℕ × α)) (r : ℕ) : α := (d.lookup r).getD default

/-- find_center.py line 193: `sorted(r for r in run_to_pos.keys() if r in peak_by_run)`. -/
def commonRuns (rtp : List (ℕ × α)) (pbr : List (ℕ × β)) : List ℕ :=
  sortNat ((dictKeys rtp).filter (fun r => (dictKeys pbr).contains r))

/-- find_center.py lines 192–223.  The Gaussian fit of peak position versus
stage position is performed by ROOT; it is modelled by the oracle `gausFit`
applied to the (position, peak, peak error) points the code builds.  `.error`
models the RuntimeError raised when fewer than three runs survive. -/
def extract_center [Inhabited α] (scanName : String) (rtp : List (ℕ × α))
    (pbr : List (ℕ × (ℚ × ℚ))) (gausFit : List (α × ℚ × ℚ) → ℚ × ℚ) :
    Except String (ℚ × ℚ) :=
  let runs := commonRuns rtp pbr
  if runs.length < 3 then
    .error ("Not enough valid points for " ++ scanName ++ ": got " ++ toString runs.length)
  else
    .ok (gausFit (runs.map (fun r => (dget rtp r, (dget pbr r).1, (dget pbr r).2))))

/-- find_center.py lines 14–25: the vertical run → position table.  Its only
outer key is the crystal number 4; the run → position pairs sit one level
deeper. -/
def run_to_pos_vertical : List (ℕ × List (ℕ × ℚ)) :=
  [(4, [(121, 362/10), (122, 352/10), (124, 342/10), (125, 332/10),
        (126, 372/10), (127, 382/10), (128, 392/10), (129, 402/10)])]

/-- find_center.py lines 27–39: the horizontal run → position table, outer
key 4 only. -/
def run_to_pos_horizontal : List (ℕ × List (ℕ × ℚ)) :=
  [(4, [(121, 472/10), (130, 482/10), (131, 502/10), (132, 492/10),
        (133, 512/10), (134, 462/10), (135, 452/10), (136, 442/10), (137, 432/10)])]

/-- find_center.py lines 244–268: `for run in sorted(run_to_pos_*.keys())`
calls `analyze_run` on each OUTER key and keeps the non-None results. -/
def buildPeaks (outer : List (ℕ × α)) (analyze : ℕ → Option (ℚ × ℚ)) :
    List (ℕ × (ℚ × ℚ)) :=
  (sortNat (dictKeys outer)).filterMap (fun r => (analyze r).map (fun v => (r, v)))

end FindCenter

namespace DAQ

/-- 009_IntInjection_2V5.py line 200. -/
def total_asic : ℕ := 2

/-- 009_IntInjection_2V5.py line 204. -/
def i2c_retry : ℕ := 50

/-- 009_IntInjection_2V5.py line 210. -/
def machine_gun : ℕ := 10

/-- 009_IntInjection_2V5.py line 283. -/
def phase_settings : List ℕ := [0, 1, 2, 3, 5, 8, 9, 10, 11, 12, 13, 14, 15]

/-- 009_IntInjection_2V5.py line 287. -/
def scan_start_chn : ℕ := 0

/-- 009_IntInjection_2V5.py line 288. -/
def scan_chn_numbers_per_asic : ℕ := 18

/-- 009_IntInjection_2V5.py line 296 (`25.0`). -/
def sample_time_interval : ℚ := 25

/-- 009_IntInjection_2V5.py line 297 (`25.0/16.0`, an exact dyadic value). -/
def phase_time_interval : ℚ := 25 / 16

/-- 009_IntInjection_2V5.py line 298. -/
def phase_offset : ℤ := 7

/-- One (ADC, TOT, ToA) sample with its errors, as returned per channel and
per sample index by `caliblib.Inj_2V5`. -/
structure Sample where
  adc : ℚ
  adcErr : ℚ
  tot : ℚ
  totErr : ℚ
  toa : ℚ
  toaErr : ℚ
deriving DecidableEq

/-- 009_IntInjection_2V5.py lines 475–477: `_phase - phase_offset`, plus 16
when negative. -/
def phase_offseted (p : ℕ) : ℤ :=
  let d := (p : ℤ) - phase_offset
  if d < 0 then d + 16 else d

/-- 009_IntInjection_2V5.py line 482: the time recorded for sample index `i`
of phase `p`. -/
def sampleTime (p : ℕ) (i : ℕ) : ℚ :=
  (phase_offseted p : ℚ) * phase_time_interval + (i : ℚ) * sample_time_interval

/-- 009_IntInjection_2V5.py lines 479–488: per phase and channel, each sample
with a nonzero ADC is appended as a (time, sample) record; zero-ADC samples
are skipped. -/
def recordPhaseChannel (p : ℕ) (samples : List Sample) : List (ℚ × Sample) :=
  samples.enum.filterMap (fun is =>
    if is.2.adc = 0 then none else some (sampleTime p is.1, is.2))

/-- 009_IntInjection_2V5.py lines 461–463: the scanned channel indices
`_asic * 76 + _chn_asic` for `_chn_asic` in
`range(scan_start_chn, scan_chn_numbers_per_asic + scan_start_chn)`. -/
def scannedChns : List ℕ :=
  (List.range total_asic).flatMap (fun a =>
    (List.range' scan_start_chn scan_chn_numbers_per_asic).map (fun c => a * 76 + c))

/-- 009_IntInjection_2V5.py lines 438–488: the per-channel record list after
the whole phase scan.  `inj p chn` is the sample list `caliblib.Inj_2V5`
returns for channel `chn` in the cycle with phase `p` (external data taking,
modelled as an oracle); channels outside the scan ranges, in
`channel_not_used` (`cnu`) or in `dead_channel_list` (`dcl`) keep empty
lists. -/
def phaseScanEntries (cnu dcl : List ℕ) (inj : ℕ → ℕ → List Sample) (chn : ℕ) :
    List (ℚ × Sample) :=
  if chn ∈ scannedChns ∧ chn ∉ cnu ∧ chn ∉ dcl then
    phase_settings.flatMap (fun p => recordPhaseChannel p (inj p chn))
  else []

/-- One CSV cell: a header word or a numeric value. -/
inductive Cell where
  | str : String → Cell
  | num : ℚ → Cell
deriving DecidableEq

/-- 009_IntInjection_2V5.py line 498: the header row. -/
def csvHeader : List Cell :=
  [Cell.str ("Channel"), Cell.str ("Time"), Cell.str ("Phase"), Cell.str ("ADC"),
   Cell.str ("TOT_10bit"), Cell.str ("TOT_12bit"), Cell.str ("ToA")]

/-- 009_IntInjection_2V5.py line 539: the phase column written back out,
`int(((t % sample_time_interval) / phase_time_interval) + phase_offset) % 16`. -/
def reconstructPhase (t : ℚ) : ℤ :=
  Py.pyInt (Py.pyMod t sample_time_interval / phase_time_interval + (phase_offset : ℚ)) % 16

/-- Lexicographic boolean order on equal-length rational key lists, the order
Python's `sorted` uses on the zipped tuples. -/
def lexLe : List ℚ → List ℚ → Bool
  | [], _ => true
  | _ :: _, [] => false
  | a :: as, b :: bs => if a < b then true else if b < a then false else lexLe as bs

/-- 009_IntInjection_2V5.py line 518: the tuple
(time, adc, tot, toa, adc_err, tot_err, toa_err) the zipped lists sort by. -/
def entryKey (e : ℚ × Sample) : List ℚ :=
  [e.1, e.2.adc, e.2.tot, e.2.toa, e.2.adcErr, e.2.totErr, e.2.toaErr]

/-- Comparison of two records by their zipped tuple. -/
def entryLe (a b : ℚ × Sample) : Bool := lexLe (entryKey a) (entryKey b)

/-- 009_IntInjection_2V5.py line 518: `sorted(zip(...))`, a stable sort of the
records by their tuples. -/
def sortEntries (l : List (ℚ × Sample)) : List (ℚ × Sample) := Py.sSort entryLe l

/-- 009_IntInjection_2V5.py lines 537–540: one data row.  `decompress` models
`caliblib.decompress_tot` (external). -/
def csvRow (decompress : ℚ → ℚ) (chn : ℕ) (e : ℚ × Sample) : List Cell :=
  [Cell.num (chn : ℚ), Cell.num e.1, Cell.num (reconstructPhase e.1 : ℚ),
   Cell.num e.2.adc, Cell.num e.2.tot, Cell.num (decompress e.2.tot),
   Cell.num e.2.toa]

/-- 009_IntInjection_2V5.py lines 516–540: a channel whose lists are empty is
skipped with a warning; otherwise its records are sorted and written one row
each (the seven parallel lists always have equal length, so the `if _times
and _adcs and ...` test is the emptiness test). -/
def channelRows (decompress : ℚ → ℚ) (chn : ℕ) (entries : List (ℚ × Sample)) :
    List (List Cell) :=
  if entries.isEmpty then []
  else (sortEntries entries).map (csvRow decompress chn)

/-- 009_IntInjection_2V5.py lines 495–540: the single CSV file written,
header row first, then the data rows of every scanned channel in scan
order. -/
def csvFile (cnu dcl : List ℕ) (inj : ℕ → ℕ → List Sample) (decompress : ℚ → ℚ) :
    List (List Cell) :=
  csvHeader ::
    scannedChns.flatMap (fun chn =>
      channelRows decompress chn (phaseScanEntries cnu dcl inj chn))

/-- One call to `packetlib.send_check_i2c_wrapper`: the register write request
the script hands to the wrapper. -/
structure I2CWrite where
  asic : ℕ
  subAddr : ℕ
  regAddr : ℕ
  data : List ℕ
  retry : ℕ
deriving DecidableEq

/-- Observable events of the DAQ script: an I2C register write through the
wrapper together with the success flag the wrapper returned, a
`logger.warning` line, the one `send_check_DAQ_gen_params` call, and one
`caliblib.Inj_2V5` data-taking call. -/
inductive Ev where
  | i2c : I2CWrite → Bool → Ev
  | warn : Ev
  | gen : Bool → Ev
  | inj : Ev
deriving DecidableEq

/-- 009_IntInjection_2V5.py lines 380, 397, 408: `_reg_key.replace(" ", "")`. -/
def cleanKey (k : String) : String := ⟨Py.replChar ' ' [] k.data⟩

/-- 009_IntInjection_2V5.py lines 381–383: for a `Channel_` key, pad the
number below 10 with a zero (`replace("_", "_0")`); `none` models the
exception raised when the part after the underscore is missing or not a
number. -/
def channelKeyClear (k : String) : Option String :=
  let kc := cleanKey k
  match (Py.splitChar '_' kc.data).get? 1 with
  | none => none
  | some fld =>
    match Py.digitsToNat fld with
    | none => none
    | some n => some (if n < 10 then ⟨Py.replChar '_' ("_0").data kc.data⟩ else kc)

/-- 009_IntInjection_2V5.py lines 376–412: what one register key of the
loaded config contributes to the configuration pass.  `i2cAddr` models the
`i2c_dict` lookup of the cleaned key; `v` is the already hex-parsed value
list.  `.ok none` means the key is not written; `.error` models an uncaught
exception (bad `Channel_` key, or an out-of-range override index). -/
def keyAction (i2cAddr : String → ℕ) (a : ℕ) (k : String) (v : List ℕ) :
    Except Unit (Option I2CWrite) :=
  if Py.pyIn ("Channel_") k || Py.pyIn ("CM_") k || Py.pyIn ("CALIB_") k then
    if Py.pyIn ("Channel_") k then
      match channelKeyClear k with
      | none => .error ()
      | some kc => .ok (some ⟨a, i2cAddr kc, 0, v, i2c_retry⟩)
    else .ok (some ⟨a, i2cAddr (cleanKey k), 0, v, i2c_retry⟩)
  else if Py.pyIn ("Global_Analog_") k then
    match (Py.pySet v 8 0xA0).bind (fun v1 => (Py.pySet v1 9 0xCA).bind (fun v2 =>
        (Py.pySet v2 10 0x42).bind (fun v3 => Py.pySet v3 14 0x6F))) with
    | none => .error ()
    | some v4 => .ok (some ⟨a, i2cAddr (cleanKey k), 0, v4, i2c_retry⟩)
  else if Py.pyIn ("Digital_Half_") k then
    match (Py.pySet v 4 0xC0).bind (fun v1 => Py.pySet v1 25 0x02) with
    | none => .error ()
    | some v2 => .ok (some ⟨a, i2cAddr (cleanKey k), 0, v2, i2c_retry⟩)
  else .ok none

/-- Faithful run of the register loop for one ASIC (009_IntInjection_2V5.py
lines 376–412), threading the wrapper oracle `ora` (indexed by how many
wrapper calls happened so far): a failing wrapper call adds a warning and the
loop continues; an exception stops the pass (flag `false`). -/
def runRegs (i2cAddr : String → ℕ) (a : ℕ) (ora : ℕ → Bool) :
    List (String × List ℕ) → ℕ → List Ev × ℕ × Bool
  | [], n => ([], n, true)
  | (k, v) :: rest, n =>
    match keyAction i2cAddr a k v with
    | .error _ => ([], n, false)
    | .ok none => runRegs i2cAddr a ora rest n
    | .ok (some w) =>
      let ok := ora n
      let r := runRegs i2cAddr a ora rest (n + 1)
      ((if ok then [Ev.i2c w true] else [Ev.i2c w false, Ev.warn]) ++ r.1, r.2)

/-- Faithful run of the configuration pass over the per-ASIC register dicts
(009_IntInjection_2V5.py lines 374–412). -/
def runCfg (i2cAddr : String → ℕ) (ora : ℕ → Bool) :
    ℕ → List (List (String × List ℕ)) → ℕ → List Ev × ℕ × Bool
  | _, [], n => ([], n, true)
  | a, regs :: rest, n =>
    let r := runRegs i2cAddr a ora regs n
    if r.2.2 then
      let r2 := runCfg i2cAddr ora (a + 1) rest r.2.1
      (r.1 ++ r2.1, r2.2)
    else (r.1, r.2.1, false)

/-- The per-ASIC `top_reg_runLR` / `top_reg_offLR` byte lists built at set-up
(009_IntInjection_2V5.py lines 311–319, 339–340). -/
structure TopRegs where
  runLR : List (List ℕ)
  offLR : List (List ℕ)
deriving DecidableEq

/-- Set byte 7 of entry `a` to `p & 0x0F` (written `p % 16`); `none` models
the IndexError on a missing entry or short list. -/
def updAt (p : ℕ) (ls : List (List ℕ)) (a : ℕ) : Option (List (List ℕ)) :=
  match ls.get? a with
  | none => none
  | some l => (Py.pySet l 7 (p % 16)).map (fun l2 => ls.set a l2)

/-- 009_IntInjection_2V5.py lines 440–442: per ASIC, write the phase into
byte 7 of both top registers. -/
def updAsic (p : ℕ) (st : TopRegs) (a : ℕ) : Option TopRegs :=
  (updAt p st.offLR a).bind (fun offs =>
    (updAt p st.runLR a).map (fun runs => ⟨runs, offs⟩))

/-- The register update loop over both ASICs at the top of each phase
iteration. -/
def updPhase (p : ℕ) (st : TopRegs) : Option TopRegs :=
  (List.range total_asic).foldlM (updAsic p) st

/-- Emit the events of a list of wrapper calls: each failing call is followed
by exactly one warning, and the sequence of requests never depends on the
answers. -/
def emitWrites : List I2CWrite → (ℕ → Bool) → ℕ → List Ev × ℕ
  | [], _, n => ([], n)
  | w :: rest, ora, n =>
    let ok := ora n
    let r := emitWrites rest ora (n + 1)
    ((if ok then [Ev.i2c w true] else [Ev.i2c w false, Ev.warn]) ++ r.1, r.2)

/-- One phase iteration (009_IntInjection_2V5.py lines 438–459): update the
top registers, turn on LR for each ASIC — the source reuses the stale
`_asic_config` loop variable here, so BOTH ASICs are written with the LAST
ASIC's `top_reg_runLR` —, take data (`caliblib.Inj_2V5`), and turn off LR
with each ASIC's own `top_reg_offLR`. -/
def runPhase (subTop : ℕ) (ora : ℕ → Bool) (p : ℕ) (st : TopRegs) (n : ℕ) :
    List Ev × ℕ × Option TopRegs :=
  match updPhase p st with
  | none => ([], n, none)
  | some st2 =>
    let runData := st2.runLR.getD (total_asic - 1) []
    let r1 := emitWrites ((List.range total_asic).map
      (fun a => ⟨a, subTop, 0, runData, i2c_retry⟩)) ora n
    let r2 := emitWrites ((List.range total_asic).map
      (fun a => ⟨a, subTop, 0, st2.offLR.getD a [], i2c_retry⟩)) ora r1.2
    (r1.1 ++ [Ev.inj] ++ r2.1, r2.2, some st2)

/-- The phase-scan loop over `phase_settings`. -/
def runPhases (subTop : ℕ) (ora : ℕ → Bool) :
    List ℕ → TopRegs → ℕ → List Ev × ℕ × Bool
  | [], _, n => ([], n, true)
  | p :: ps, st, n =>
    let r := runPhase subTop ora p st n
    match r.2.2 with
    | none => (r.1, r.2.1, false)
    | some st2 =>
      let r2 := runPhases subTop ora ps st2 r.2.1
      (r.1 ++ r2.1, r2.2)

/-- The whole register-writing part of the DAQ script: the configuration pass
(lines 374–412), the one generator set-up call (lines 423–426, warning on
failure), then the phase scan (lines 438–459).  `subTop` models
`packetlib.subblock_address_dict["Top"]`, `genOk` the outcome of the
generator set-up call; the flag is `false` when an uncaught exception stopped
the script. -/
def scriptRun (i2cAddr : String → ℕ) (subTop : ℕ)
    (cfg : List (List (String × List ℕ))) (st : TopRegs) (genOk : Bool)
    (ora : ℕ → Bool) : List Ev × Bool :=
  let r := runCfg i2cAddr ora 0 cfg 0
  if r.2.2 then
    let genEvs := if genOk then [Ev.gen true] else [Ev.gen false, Ev.warn]
    let r2 := runPhases subTop ora phase_settings st r.2.1
    (r.1 ++ genEvs ++ r2.1, r2.2.2)
  else (r.1, false)

/-- The I2C write requests occurring in an event trace. -/
def evWrites (evs : List Ev) : List I2CWrite :=
  evs.filterMap (fun e => match e with | Ev.i2c w _ => some w | _ => none)

/-- Request-side of the register loop for one ASIC: the write requests it
issues and whether it completes, independent of any wrapper answers. -/
def regsReqs (i2cAddr : String → ℕ) (a : ℕ) :
    List (String × List ℕ) → List I2CWrite × Bool
  | [] => ([], true)
  | (k, v) :: rest =>
    match keyAction i2cAddr a k v with
    | .error _ => ([], false)
    | .ok none => regsReqs i2cAddr a rest
    | .ok (some w) =>
      let r := regsReqs i2cAddr a rest
      (w :: r.1, r.2)

/-- Request-side of the configuration pass. -/
def cfgReqs (i2cAddr : String → ℕ) :
    ℕ → List (List (String × List ℕ)) → List I2CWrite × Bool
  | _, [] => ([], true)
  | a, regs :: rest =>
    let r := regsReqs i2cAddr a regs
    if r.2 then
      let r2 := cfgReqs i2cAddr (a + 1) rest
      (r.1 ++ r2.1, r2.2)
    else (r.1, false)

/-- Request-side of one phase iteration. -/
def phaseReqs (subTop : ℕ) (p : ℕ) (st : TopRegs) :
    Option (TopRegs × List I2CWrite) :=
  (updPhase p st).map (fun st2 =>
    (st2,
      (List.range total_asic).map
        (fun a => ⟨a, subTop, 0, st2.runLR.getD (total_asic - 1) [], i2c_retry⟩)
      ++ (List.range total_asic).map
        (fun a => ⟨a, subTop, 0, st2.offLR.getD a [], i2c_retry⟩)))

/-- Request-side of the phase scan. -/
def phasesReqs (subTop : ℕ) : List ℕ → TopRegs → List I2CWrite × Bool
  | [], _ => ([], true)
  | p :: ps, st =>
    match phaseReqs subTop p st with
    | none => ([], false)
    | some r =>
      let r2 := phasesReqs subTop ps r.1
      (r.2 ++ r2.1, r2.2)

/-- Request-side of the whole script. -/
def scriptReqs (i2cAddr : String → ℕ) (subTop : ℕ)
    (cfg : List (List (String × List ℕ))) (st : TopRegs) : List I2CWrite × Bool :=
  let r := cfgReqs i2cAddr 0 cfg
  if r.2 then
    let r2 := phasesReqs subTop phase_settings st
    (r.1 ++ r2.1, r2.2)
  else (r.1, false)

/-- The per-key write the specification describes for the configuration pass:
`Channel_` / `CM_` / `CALIB_` blocks verbatim, `Global_Analog_` blocks with
bytes 8, 9, 10, 14 overridden to 0xA0, 0xCA, 0x42, 0x6F, `Digital_Half_`
blocks with bytes 4, 25 overridden to 0xC0, 0x02, nothing else. -/
def specWrite (i2cAddr : String → ℕ) (a : ℕ) (kv : String × List ℕ) :
    Option I2CWrite :=
  if Py.pyIn ("Channel_") kv.1 || Py.pyIn ("CM_") kv.1 || Py.pyIn ("CALIB_") kv.1 then
    some ⟨a,
      i2cAddr (if Py.pyIn ("Channel_") kv.1 then
                 (channelKeyClear kv.1).getD (cleanKey kv.1)
               else cleanKey kv.1),
      0, kv.2, 50⟩
  else if Py.pyIn ("Global_Analog_") kv.1 then
    some ⟨a, i2cAddr (cleanKey kv.1), 0,
      (((kv.2.set 8 0xA0).set 9 0xCA).set 10 0x42).set 14 0x6F, 50⟩
  else if Py.pyIn ("Digital_Half_") kv.1 then
    some ⟨a, i2cAddr (cleanKey kv.1), 0, (kv.2.set 4 0xC0).set 25 0x02, 50⟩
  else none

/-- Well-formedness of one register entry of the loaded config: a `Channel_`
key parses, and the override targets exist (true of the real H2GCROC register
maps, whose blocks are 32 bytes wide). -/
def goodKV (kv : String × List ℕ) : Prop :=
  (Py.pyIn ("Channel_") kv.1 = true → (channelKeyClear kv.1).isSome = true)
  ∧ ((Py.pyIn ("Channel_") kv.1 || Py.pyIn ("CM_") kv.1 || Py.pyIn ("CALIB_") kv.1) = false →
      Py.pyIn ("Global_Analog_") kv.1 = true → 15 ≤ kv.2.length)
  ∧ ((Py.pyIn ("Channel_") kv.1 || Py.pyIn ("CM_") kv.1 || Py.pyIn ("CALIB_") kv.1) = false →
      Py.pyIn ("Global_Analog_") kv.1 = false →
      Py.pyIn ("Digital_Half_") kv.1 = true → 26 ≤ kv.2.length)

end DAQ

namespace AmpHists

/-- Test_LED_Analysis/Res_amplitude/plot_all_amplitude_hists.py lines 53–68:
the inline CSV loop after `next(reader, None)` dropped the first line.  A row
is kept only when it has at least two fields, both parse as floats
(`Py.Field.bad` models the ValueError skip) and neither is NaN; the two
appended lists are returned. -/
def csvPairsLoop : List (List Py.Field) → List ℚ × List ℚ
  | [] => ([], [])
  | row :: rest =>
    if row.length < 2 then csvPairsLoop rest
    else
      match row.get? 0, row.get? 1 with
      | some (Py.Field.num xc), some (Py.Field.num c) =>
        let r := csvPairsLoop rest
        (xc :: r.1, c :: r.2)
      | some Py.Field.bad, some _ => csvPairsLoop rest
      | some _, some Py.Field.bad => csvPairsLoop rest
      | some Py.Field.nan, some _ => csvPairsLoop rest
      | some _, some Py.Field.nan => csvPairsLoop rest
      | _, _ => csvPairsLoop rest

/-- The inline reader including the unconditional `next(reader, None)` that
drops the first line of the file. -/
def readCsvPairs (rows : List (List Py.Field)) : List ℚ × List ℚ :=
  csvPairsLoop (rows.drop 1)

/-- Test_LED_Analysis/Res_amplitude/plot_all_amplitude_hists.py lines 77–81:
bin edges from bin centers — half-step-extended first and last edge,
midpoints in between. -/
def binEdges (x : List ℚ) : List ℚ :=
  (List.range (x.length + 1)).map (fun i =>
    if i = 0 then x.getD 0 0 - 0.5 * (x.getD 1 0 - x.getD 0 0)
    else if i = x.length then
      x.getD (x.length - 1) 0 + 0.5 * (x.getD (x.length - 1) 0 - x.getD (x.length - 2) 0)
    else 0.5 * (x.getD (i - 1) 0 + x.getD i 0))

/-- Test_LED_Analysis/Res_amplitude/plot_all_amplitude_hists.py lines 112–131:
window statistics from the summed weights, then `resolution = (rms / mean) if
mean != 0 else 0.0`.  `sqrtQ` models `math.sqrt`. -/
def resolution (sumw sumwx sumwx2 : ℚ) (sqrtQ : ℚ → ℚ) : Except String ℚ :=
  if 0 < sumw then
    (Py.pydiv sumwx sumw).bind (fun mean =>
      (Py.pydiv sumwx2 sumw).bind (fun m2 =>
        let var := m2 - mean * mean
        let rms := if 0 < var then sqrtQ var else 0
        if mean ≠ 0 then Py.pydiv rms mean else .ok 0))
  else .ok 0

/-- Test_LED_Analysis/Res_amplitude/plot_all_amplitude_hists.py line 192:
`resolution_fit = sigma_fit / mean_fit if mean_fit != 0 else 0.0`. -/
def resolution_fit (mean_fit sigma_fit : ℚ) : Except String ℚ :=
  if mean_fit ≠ 0 then Py.pydiv sigma_fit mean_fit else .ok 0

end AmpHists

namespace ResArea

/-- Test_LED_Analysis/Res_area/plot_hist_area.py lines 31–43: the row loop of
`read_binned_hist_csv`. -/
def csvPairsLoop : List (List Py.Field) → List ℚ × List ℚ
  | [] => ([], [])
  | row :: rest =>
    if row.length < 2 then csvPairsLoop rest
    else
      match row.get? 0, row.get? 1 with
      | some (Py.Field.num xc), some (Py.Field.num c) =>
        let r := csvPairsLoop rest
        (xc :: r.1, c :: r.2)
      | some Py.Field.bad, some _ => csvPairsLoop rest
      | some _, some Py.Field.bad => csvPairsLoop rest
      | some Py.Field.nan, some _ => csvPairsLoop rest
      | some _, some Py.Field.nan => csvPairsLoop rest
      | _, _ => csvPairsLoop rest

/-- Test_LED_Analysis/Res_area/plot_hist_area.py lines 26–44:
`read_binned_hist_csv`, with `_ = next(reader, None)` dropping the first
line unconditionally. -/
def read_binned_hist_csv (rows : List (List Py.Field)) : List ℚ × List ℚ :=
  csvPairsLoop (rows.drop 1)

/-- Test_LED_Analysis/Res_area/plot_hist_area.py lines 52–56: the edge list
built inside `make_th1_from_centers_counts`. -/
def binEdges (x : List ℚ) : List ℚ :=
  (List.range (x.length + 1)).map (fun i =>
    if i = 0 then x.getD 0 0 - 0.5 * (x.getD 1 0 - x.getD 0 0)
    else if i = x.length then
      x.getD (x.length - 1) 0 + 0.5 * (x.getD (x.length - 1) 0 - x.getD (x.length - 2) 0)
    else 0.5 * (x.getD (i - 1) 0 + x.getD i 0))

/-- Test_LED_Analysis/Res_area/plot_hist_area.py lines 46–68: `None` below two
centers, else the histogram's edge sequence (the ROOT TH1D construction
itself is external). -/
def make_th1_from_centers_counts (x : List ℚ) : Option (List ℚ) :=
  if x.length < 2 then none else some (binEdges x)

/-- Test_LED_Analysis/Res_area/plot_hist_area.py line 109:
`resolution_rms = rms / mean if mean != 0 else 0.0`. -/
def resolution_rms (mean rms : ℚ) : Except String ℚ :=
  if mean ≠ 0 then Py.pydiv rms mean else .ok 0

/-- Test_LED_Analysis/Res_area/plot_hist_area.py line 140:
`resolution_fit = sigma_fit / mean_fit if mean_fit != 0 else 0.0`. -/
def resolution_fit (mean_fit sigma_fit : ℚ) : Except String ℚ :=
  if mean_fit ≠ 0 then Py.pydiv sigma_fit mean_fit else .ok 0

end ResArea

namespace OscRes

/-- Test_LED_oscilloscope_Analysis/plot_resolution_vs_voltage.py lines 41–53:
the row loop of `read_binned_hist_csv`. -/
def csvPairsLoop : List (List Py.Field) → List ℚ × List ℚ
  | [] => ([], [])
  | row :: rest =>
    if row.length < 2 then csvPairsLoop rest
    else
      match row.get? 0, row.get? 1 with
      | some (Py.Field.num xc), some (Py.Field.num c) =>
        let r := csvPairsLoop rest
        (xc :: r.1, c :: r.2)
      | some Py.Field.bad, some _ => csvPairsLoop rest
      | some _, some Py.Field.bad => csvPairsLoop rest
      | some Py.Field.nan, some _ => csvPairsLoop rest
      | some _, some Py.Field.nan => csvPairsLoop rest
      | _, _ => csvPairsLoop rest

/-- Test_LED_oscilloscope_Analysis/plot_resolution_vs_voltage.py lines 36–54:
`read_binned_hist_csv`. -/
def read_binned_hist_csv (rows : List (List Py.Field)) : List ℚ × List ℚ :=
  csvPairsLoop (rows.drop 1)

/-- Test_LED_oscilloscope_Analysis/plot_resolution_vs_voltage.py lines 61–65:
the edge list inside `make_th1_from_centers_counts`. -/
def binEdges (x : List ℚ) : List ℚ :=
  (List.range (x.length + 1)).map (fun i =>
    if i = 0 then x.getD 0 0 - 0.5 * (x.getD 1 0 - x.getD 0 0)
    else if i = x.length then
      x.getD (x.length - 1) 0 + 0.5 * (x.getD (x.length - 1) 0 - x.getD (x.length - 2) 0)
    else 0.5 * (x.getD (i - 1) 0 + x.getD i 0))

/-- Test_LED_oscilloscope_Analysis/plot_resolution_vs_voltage.py lines 56–75. -/
def make_th1_from_centers_counts (x : List ℚ) : Option (List ℚ) :=
  if x.length < 2 then none else some (binEdges x)

/-- Test_LED_oscilloscope_Analysis/plot_resolution_vs_voltage.py lines
123–133: `res_and_err_from_sigma_mu`.  The four inputs may be `None` (the
failed-fit values); `sqrtQ` models `math.sqrt`. -/
def res_and_err_from_sigma_mu (sigma sigma_err mu mu_err : Option ℚ)
    (sqrtQ : ℚ → ℚ) : Except String (ℚ × ℚ) :=
  if mu = some 0 ∨ sigma = none ∨ mu = none then .ok (0, 0)
  else
    (Py.pydiv (sigma.getD 0) (mu.getD 0)).bind (fun R =>
      if sigma = some 0 then .ok (R, 0)
      else
        (if sigma_err ≠ none ∧ mu_err ≠ none ∧ sigma ≠ some 0 ∧ mu ≠ some 0 then
          (Py.pydiv (sigma_err.getD 0) (sigma.getD 0)).bind (fun a =>
            (Py.pydiv (mu_err.getD 0) (mu.getD 0)).map (fun b =>
              sqrtQ (a ^ 2 + b ^ 2)))
        else .ok 0).map (fun rel => (R, |R| * rel)))

end OscRes

namespace TLAHist

/-- Test_LED_Analysis/plot_hist_area.py line 102:
`resolution = rms / mean if mean != 0 else 0.0`. -/
def resolution (mean rms : ℚ) : Except String ℚ :=
  if mean ≠ 0 then Py.pydiv rms mean else .ok 0

end TLAHist

namespace TLARes

/-- Test_LED_Analysis/plot_resolution_vs_voltage.py lines 115–138: the
per-file tail of `compute_resolution_points` given the histogram statistics
ROOT reports.  A zero mean hits the `continue` at line 121, so the file is
skipped and NO resolution point is recorded (`.ok none`); the NaN guards of
the same line cannot fire over exact rationals.  Otherwise the point
`(res * 100, res_err * 100)` is appended.  `sqrtQ` models `math.sqrt`. -/
def compute_resolution_point (mean rms mean_err rms_err : ℚ) (sqrtQ : ℚ → ℚ) :
    Except String (Option (ℚ × ℚ)) :=
  if mean = 0 then .ok none
  else
    (Py.pydiv rms mean).bind (fun res =>
      (if 0 < rms then
        (if mean ≠ 0 then
          (Py.pydiv rms_err rms).bind (fun a =>
            (Py.pydiv mean_err mean).map (fun b => sqrtQ (a ^ 2 + b ^ 2)))
        else .ok 0).map (fun rel => |res| * rel)
      else .ok 0).map (fun res_err => some (res * 100, res_err * 100)))

end TLARes

namespace Py

/-- The pair a CSV data row contributes when its first two fields are
parseable non-NaN floats, and `none` otherwise — the specification of the
readers' filtering. -/
def rowPair (row : List Field) : Option (ℚ × ℚ) :=
  match row.get? 0, row.get? 1 with
  | some (Field.num a), some (Field.num b) => some (a, b)
  | _, _ => none

end Py

namespace DAQ

/-- Every `i2c` event carrying a failure flag is immediately followed by a
warning event (in particular it is never the last event). -/
def okSeq : List Ev → Prop
  | [] => True
  | Ev.i2c _ false :: rest => rest.head? = some Ev.warn ∧ okSeq rest
  | _ :: rest => okSeq rest

/-- Concrete data-taking oracle used for evaluation: one sample with ADC 5
per phase and channel. -/
def injW : ℕ → ℕ → List Sample := fun _ _ => [⟨5, 0, 0, 0, 0, 0⟩]

/-- Concrete loaded-config fixture used for evaluation: one register block of
each classified kind plus one block that is not written. -/
def cfgW : List (List (String × List ℕ)) :=
  [[("Channel_5          ", [1, 2]),
    ("Channel_17         ", [3]),
    ("CM_0               ", [4, 5]),
    ("CALIB_0            ", [6]),
    ("Global_Analog_0    ", [0, 1, 2, 3, 4, 5, 6, 7, 8, 9, 10, 11, 12, 13, 14]),
    ("Digital_Half_0     ",
      [0, 1, 2, 3, 4, 5, 6, 7, 8, 9, 10, 11, 12, 13, 14, 15, 16, 17, 18, 19,
       20, 21, 22, 23, 24, 25]),
    ("Top                ", [9, 9])],
   []]

/-- Concrete top-register fixture: two eight-byte lists per direction. -/
def stW : TopRegs :=
  ⟨[[0, 0, 0, 0, 0, 0, 0, 0], [1, 1, 1, 1, 1, 1, 1, 1]],
   [[2, 2, 2, 2, 2, 2, 2, 2], [3, 3, 3, 3, 3, 3, 3, 3]]⟩

/-- Concrete register-address oracle used for evaluation. -/
def addrW : String → ℕ := fun _ => 7

end DAQ

/-! ## Theorems -/

theorem Py.sIns_perm (le : α → α → Bool) (a : α) (l : List α) :
    (Py.sIns le a l).Perm (a :: l) := by
  induction l with
  | nil => simp [Py.sIns]
  | cons b bs ih =>
    by_cases h : le a b
    · simp [Py.sIns, h]
    · simp only [Py.sIns, if_neg h]
      exact (ih.cons b).trans (List.Perm.swap a b bs)

theorem Py.sSort_perm (le : α → α → Bool) (l : List α) :
    (Py.sSort le l).Perm l := by
  induction l with
  | nil => simp [Py.sSort]
  | cons a as ih =>
    exact (Py.sIns_perm le a (Py.sSort le as)).trans (ih.cons a)

theorem Py.sSort_length (le : α → α → Bool) (l : List α) :
    (Py.sSort le l).length = l.length :=
  (Py.sSort_perm le l).length_eq

/-- C1: the claim says `analyze_run` fits the Crystal Ball to the summed
histogram and returns the fitted `(mean, mean_err)` whenever the ROOT file
exists, opens without being a zombie and holds the tree `events`.  The code
never calls `h.Fit(cb)` and never assigns `mean`/`mean_err`; on every run that
passes the three guards it raises `NameError: name 'mean' is not defined` at
line 175 and returns nothing. -/
theorem analyze_run_raises_name_error :
    FindCenter.analyze_run true true true = FindCenter.RunOutcome.nameError ("mean")
    ∧ ∀ fe oz ht, FindCenter.analyze_run fe oz ht ≠ FindCenter.RunOutcome.returned := by
  decide

/-- C2: `extract_center` raises exactly when fewer than three keys of
`run_to_pos` appear in `peak_by_run`, and otherwise hands the collected
(position, peak, error) points to the Gaussian fit; both tables of the file
have the single outer key 4, the top-level loops build `peak_H`/`peak_V` from
those outer keys only — so at most one point — and every `extract_center`
call on those tables raises. -/
theorem extract_center_raises_iff_fewer_than_three :
    (∀ (rtp : List (ℕ × ℚ)) (pbr : List (ℕ × (ℚ × ℚ))) (nm : String)
        (fit : List (ℚ × ℚ × ℚ) → ℚ × ℚ),
        FindCenter.extract_center nm rtp pbr fit =
          (if ((FindCenter.dictKeys rtp).filter
                (fun r => (FindCenter.dictKeys pbr).contains r)).length < 3 then
            .error ("Not enough valid points for " ++ nm ++ ": got "
              ++ toString (FindCenter.commonRuns rtp pbr).length)
          else
            .ok (fit ((FindCenter.commonRuns rtp pbr).map
              (fun r => (FindCenter.dget rtp r, (FindCenter.dget pbr r).1,
                (FindCenter.dget pbr r).2))))))
    ∧ FindCenter.dictKeys FindCenter.run_to_pos_horizontal = [4]
    ∧ FindCenter.dictKeys FindCenter.run_to_pos_vertical = [4]
    ∧ (∀ analyze,
        (FindCenter.buildPeaks FindCenter.run_to_pos_horizontal analyze).length ≤ 1)
    ∧ (∀ analyze,
        (FindCenter.buildPeaks FindCenter.run_to_pos_vertical analyze).length ≤ 1)
    ∧ (∀ (pbr : List (ℕ × (ℚ × ℚ))) nm fit, ∃ m,
        FindCenter.extract_center nm FindCenter.run_to_pos_horizontal pbr fit
          = .error m)
    ∧ (∀ (pbr : List (ℕ × (ℚ × ℚ))) nm fit, ∃ m,
        FindCenter.extract_center nm FindCenter.run_to_pos_vertical pbr fit
          = .error m) := by
  refine ⟨?_, rfl, rfl, ?_, ?_, ?_, ?_⟩
  · intro rtp pbr nm fit
    have hlen : (FindCenter.commonRuns rtp pbr).length
        = ((FindCenter.dictKeys rtp).filter
            (fun r => (FindCenter.dictKeys pbr).contains r)).length :=
      Py.sSort_length _ _
    rw [FindCenter.extract_center, hlen]
  · intro analyze
    show ((FindCenter.sortNat [4]).filterMap _).length ≤ 1
    cases h : analyze 4 <;>
      simp [FindCenter.sortNat, Py.sSort, Py.sIns, h]
  · intro analyze
    show ((FindCenter.sortNat [4]).filterMap _).length ≤ 1
    cases h : analyze 4 <;>
      simp [FindCenter.sortNat, Py.sSort, Py.sIns, h]
  · intro pbr nm fit
    rw [FindCenter.extract_center]
    have hlen : (FindCenter.commonRuns FindCenter.run_to_pos_horizontal pbr).length ≤ 1 := by
      rw [FindCenter.commonRuns, FindCenter.sortNat, Py.sSort_length]
      simpa [FindCenter.dictKeys, FindCenter.run_to_pos_horizontal] using
        List.length_filter_le
          (fun r => (FindCenter.dictKeys pbr).contains r)
          (FindCenter.dictKeys FindCenter.run_to_pos_horizontal)
    rw [if_pos (by omega)]
    exact ⟨_, rfl⟩
  · intro pbr nm fit
    rw [FindCenter.extract_center]
    have hlen : (FindCenter.commonRuns FindCenter.run_to_pos_vertical pbr).length ≤ 1 := by
      rw [FindCenter.commonRuns, FindCenter.sortNat, Py.sSort_length]
      simpa [FindCenter.dictKeys, FindCenter.run_to_pos_vertical] using
        List.length_filter_le
          (fun r => (FindCenter.dictKeys pbr).contains r)
          (FindCenter.dictKeys FindCenter.run_to_pos_vertical)
    rw [if_pos (by omega)]
    exact ⟨_, rfl⟩

/-- Witness for C2: with empty peak tables both concrete calls raise. -/
theorem extract_center_raises_witness :
    ∃ m, FindCenter.extract_center ("cr04_H") FindCenter.run_to_pos_horizontal
      ([] : List (ℕ × (ℚ × ℚ))) (fun _ => (0, 0)) = .error m :=
  extract_center_raises_iff_fewer_than_three.2.2.2.2.2.1 [] ("cr04_H") (fun _ => (0, 0))

theorem ampHists_csvPairsLoop_spec (rows : List (List Py.Field)) :
    AmpHists.csvPairsLoop rows =
      ((rows.filterMap Py.rowPair).map Prod.fst,
       (rows.filterMap Py.rowPair).map Prod.snd) := by
  induction rows with
  | nil => rfl
  | cons row rest ih =>
    rcases h0 : row.get? 0 with _ | f0
    · have hr : row = [] := by
        cases row with
        | nil => rfl
        | cons a l => simp [List.get?] at h0
      subst hr
      simp [AmpHists.csvPairsLoop, Py.rowPair, ih]
    · rcases h1 : row.get? 1 with _ | f1
      · have hl : row.length < 2 := by
          have := List.get?_eq_none.mp h1
          omega
        simp only [List.get?_eq_getElem?] at h0 h1
        cases f0 <;>
          simp [AmpHists.csvPairsLoop, if_pos hl, Py.rowPair, h0, h1, ih,
            List.filterMap_cons, List.get?_eq_getElem?]
      · have hl : ¬ row.length < 2 := by
          intro hc
          have h2 : row.get? 1 = none := List.get?_eq_none.mpr (by omega)
          rw [h2] at h1
          cases h1
        simp only [List.get?_eq_getElem?] at h0 h1
        cases f0 <;> cases f1 <;>
          simp [AmpHists.csvPairsLoop, if_neg hl, Py.rowPair, h0, h1, ih,
            List.filterMap_cons, List.get?_eq_getElem?]

theorem resArea_csvPairsLoop_spec (rows : List (List Py.Field)) :
    ResArea.csvPairsLoop rows =
      ((rows.filterMap Py.rowPair).map Prod.fst,
       (rows.filterMap Py.rowPair).map Prod.snd) := by
  induction rows with
  | nil => rfl
  | cons row rest ih =>
    rcases h0 : row.get? 0 with _ | f0
    · have hr : row = [] := by
        cases row with
        | nil => rfl
        | cons a l => simp [List.get?] at h0
      subst hr
      simp [ResArea.csvPairsLoop, Py.rowPair, ih]
    · rcases h1 : row.get? 1 with _ | f1
      · have hl : row.length < 2 := by
          have := List.get?_eq_none.mp h1
          omega
        simp only [List.get?_eq_getElem?] at h0 h1
        cases f0 <;>
          simp [ResArea.csvPairsLoop, if_pos hl, Py.rowPair, h0, h1, ih,
            List.filterMap_cons, List.get?_eq_getElem?]
      · have hl : ¬ row.length < 2 := by
          intro hc
          have h2 : row.get? 1 = none := List.get?_eq_none.mpr (by omega)
          rw [h2] at h1
          cases h1
        simp only [List.get?_eq_getElem?] at h0 h1
        cases f0 <;> cases f1 <;>
          simp [ResArea.csvPairsLoop, if_neg hl, Py.rowPair, h0, h1, ih,
            List.filterMap_cons, List.get?_eq_getElem?]

theorem oscRes_csvPairsLoop_spec (rows : List (List Py.Field)) :
    OscRes.csvPairsLoop rows =
      ((rows.filterMap Py.rowPair).map Prod.fst,
       (rows.filterMap Py.rowPair).map Prod.snd) := by
  induction rows with
  | nil => rfl
  | cons row rest ih =>
    rcases h0 : row.get? 0 with _ | f0
    · have hr : row = [] := by
        cases row with
        | nil => rfl
        | cons a l => simp [List.get?] at h0
      subst hr
      simp [OscRes.csvPairsLoop, Py.rowPair, ih]
    · rcases h1 : row.get? 1 with _ | f1
      · have hl : row.length < 2 := by
          have := List.get?_eq_none.mp h1
          omega
        simp only [List.get?_eq_getElem?] at h0 h1
        cases f0 <;>
          simp [OscRes.csvPairsLoop, if_pos hl, Py.rowPair, h0, h1, ih,
            List.filterMap_cons, List.get?_eq_getElem?]
      · have hl : ¬ row.length < 2 := by
          intro hc
          have h2 : row.get? 1 = none := List.get?_eq_none.mpr (by omega)
          rw [h2] at h1
          cases h1
        simp only [List.get?_eq_getElem?] at h0 h1
        cases f0 <;> cases f1 <;>
          simp [OscRes.csvPairsLoop, if_neg hl, Py.rowPair, h0, h1, ih,
            List.filterMap_cons, List.get?_eq_getElem?]

/-- C6: the duplicated CSV front ends are equivalent: on every row sequence
the inline reader of plot_all_amplitude_hists.py and the two
`read_binned_hist_csv` copies return the same (bin-center, count) lists, and
the three bin-edge builders (and both `make_th1_from_centers_counts`
wrappers) return the same edge sequences. -/
theorem duplicated_front_ends_equivalent :
    (∀ rows, AmpHists.readCsvPairs rows = ResArea.read_binned_hist_csv rows)
    ∧ (∀ rows, ResArea.read_binned_hist_csv rows = OscRes.read_binned_hist_csv rows)
    ∧ (∀ x, AmpHists.binEdges x = ResArea.binEdges x)
    ∧ (∀ x, ResArea.binEdges x = OscRes.binEdges x)
    ∧ (∀ x, ResArea.make_th1_from_centers_counts x
        = OscRes.make_th1_from_centers_counts x) := by
  refine ⟨?_, ?_, fun x => rfl, fun x => rfl, fun x => ?_⟩
  · intro rows
    rw [AmpHists.readCsvPairs, ResArea.read_binned_hist_csv,
      ampHists_csvPairsLoop_spec, resArea_csvPairsLoop_spec]
  · intro rows
    rw [ResArea.read_binned_hist_csv, OscRes.read_binned_hist_csv,
      resArea_csvPairsLoop_spec, oscRes_csvPairsLoop_spec]
  · rfl

/-- C10: every reader drops the first line unconditionally — even a data
row — and returns the two equal-length lists of exactly the (float, float)
pairs of the remaining rows whose first two fields parse as non-NaN floats,
in file order; all other rows are skipped. -/
theorem readers_drop_header_and_filter :
    (∀ rows, ResArea.read_binned_hist_csv rows =
      (((rows.drop 1).filterMap Py.rowPair).map Prod.fst,
       ((rows.drop 1).filterMap Py.rowPair).map Prod.snd))
    ∧ (∀ rows, AmpHists.readCsvPairs rows =
      (((rows.drop 1).filterMap Py.rowPair).map Prod.fst,
       ((rows.drop 1).filterMap Py.rowPair).map Prod.snd))
    ∧ (∀ rows, OscRes.read_binned_hist_csv rows =
      (((rows.drop 1).filterMap Py.rowPair).map Prod.fst,
       ((rows.drop 1).filterMap Py.rowPair).map Prod.snd))
    ∧ (∀ row0 row0' rest, ResArea.read_binned_hist_csv (row0 :: rest)
        = ResArea.read_binned_hist_csv (row0' :: rest))
    ∧ (∀ rows, (ResArea.read_binned_hist_csv rows).1.length
        = (ResArea.read_binned_hist_csv rows).2.length) := by
  refine ⟨?_, ?_, ?_, ?_, ?_⟩
  · intro rows
    rw [ResArea.read_binned_hist_csv, resArea_csvPairsLoop_spec]
  · intro rows
    rw [AmpHists.readCsvPairs, ampHists_csvPairsLoop_spec]
  · intro rows
    rw [OscRes.read_binned_hist_csv, oscRes_csvPairsLoop_spec]
  · intro row0 row0' rest
    rfl
  · intro rows
    rw [ResArea.read_binned_hist_csv, resArea_csvPairsLoop_spec]
    simp

theorem getD_map_range (f : ℕ → ℚ) (m i : ℕ) (h : i < m) :
    ((List.range m).map f).getD i 0 = f i := by
  simp [List.getD_eq_getElem?_getD, List.getElem?_map, List.getElem?_range, h]

/-- C7: for at least two strictly increasing bin centers the constructed edge
list has `n + 1` entries, with the first edge a half step below the first
center, interior edges the midpoints, and the last edge a half step above the
last center; in exact rational arithmetic the edges are strictly increasing
and every center lies in its half-open bin. -/
theorem bin_edges_spec (x : List ℚ) (h2 : 2 ≤ x.length)
    (hmono : ∀ i, i + 1 < x.length → x.getD i 0 < x.getD (i + 1) 0) :
    (ResArea.binEdges x).length = x.length + 1
    ∧ (ResArea.binEdges x).getD 0 0 = x.getD 0 0 - (x.getD 1 0 - x.getD 0 0) / 2
    ∧ (∀ i, 1 ≤ i → i ≤ x.length - 1 →
        (ResArea.binEdges x).getD i 0 = (x.getD (i - 1) 0 + x.getD i 0) / 2)
    ∧ (ResArea.binEdges x).getD x.length 0
        = x.getD (x.length - 1) 0
          + (x.getD (x.length - 1) 0 - x.getD (x.length - 2) 0) / 2
    ∧ (∀ i, i + 1 ≤ x.length →
        (ResArea.binEdges x).getD i 0 < (ResArea.binEdges x).getD (i + 1) 0)
    ∧ (∀ i, i < x.length →
        (ResArea.binEdges x).getD i 0 ≤ x.getD i 0
        ∧ x.getD i 0 < (ResArea.binEdges x).getD (i + 1) 0) := by
  have hE : ∀ i, i < x.length + 1 → (ResArea.binEdges x).getD i 0 =
      (if i = 0 then x.getD 0 0 - 0.5 * (x.getD 1 0 - x.getD 0 0)
       else if i = x.length then
         x.getD (x.length - 1) 0
           + 0.5 * (x.getD (x.length - 1) 0 - x.getD (x.length - 2) 0)
       else 0.5 * (x.getD (i - 1) 0 + x.getD i 0)) := by
    intro i hi
    rw [ResArea.binEdges]
    exact getD_map_range _ _ _ hi
  have h05 : (0.5 : ℚ) = 1 / 2 := by norm_num
  refine ⟨by simp [ResArea.binEdges], ?_, ?_, ?_, ?_, ?_⟩
  · rw [hE 0 (by omega), if_pos rfl, h05]
    ring
  · intro i h1 hle
    rw [hE i (by omega), if_neg (by omega), if_neg (by omega), h05]
    ring
  · rw [hE x.length (by omega), if_neg (by omega), if_pos rfl, h05]
    ring
  · intro i hi
    rcases Nat.eq_zero_or_pos i with rfl | hpos
    · rw [hE 0 (by omega), if_pos rfl, hE 1 (by omega), if_neg (by omega),
        if_neg (by omega), h05]
      have hx : x.getD 0 0 < x.getD 1 0 := by simpa using hmono 0 (by omega)
      simp only [Nat.sub_self]
      linarith
    · obtain ⟨j, rfl⟩ : ∃ j, i = j + 1 := ⟨i - 1, by omega⟩
      rw [hE (j + 1) (by omega), if_neg (by omega), if_neg (by omega), h05]
      by_cases hn2 : j + 1 + 1 = x.length
      · rw [hE (j + 1 + 1) (by omega), if_neg (by omega), if_pos hn2,
          show x.length - 1 = j + 1 by omega, show x.length - 2 = j by omega]
        have hx := hmono j (by omega)
        simp only [Nat.add_sub_cancel]
        linarith
      · rw [hE (j + 1 + 1) (by omega), if_neg (by omega), if_neg hn2]
        have hx1 := hmono j (by omega)
        have hx2 := hmono (j + 1) (by omega)
        simp only [Nat.add_sub_cancel]
        linarith
  · intro i hi
    rcases Nat.eq_zero_or_pos i with rfl | hpos
    · constructor
      · rw [hE 0 (by omega), if_pos rfl, h05]
        have hx := hmono 0 (by omega)
        linarith
      · rw [hE 1 (by omega), if_neg (by omega)]
        by_cases hn : 1 = x.length
        · omega
        · rw [if_neg hn, h05]
          have hx : x.getD 0 0 < x.getD 1 0 := by simpa using hmono 0 (by omega)
          simp only [Nat.sub_self]
          linarith
    · obtain ⟨j, rfl⟩ : ∃ j, i = j + 1 := ⟨i - 1, by omega⟩
      constructor
      · rw [hE (j + 1) (by omega), if_neg (by omega), if_neg (by omega), h05]
        have hx := hmono j (by omega)
        simp only [Nat.add_sub_cancel]
        linarith
      · by_cases hn2 : j + 1 + 1 = x.length
        · rw [hE (j + 1 + 1) (by omega), if_neg (by omega), if_pos hn2,
            show x.length - 1 = j + 1 by omega, show x.length - 2 = j by omega,
            h05]
          have hx := hmono j (by omega)
          linarith
        · rw [hE (j + 1 + 1) (by omega), if_neg (by omega), if_neg hn2, h05]
          have hx := hmono (j + 1) (by omega)
          simp only [Nat.add_sub_cancel]
          linarith

/-- Witness for C7 at the centers `[0, 1, 3]`: seven of the guaranteed facts,
evaluated concretely. -/
theorem bin_edges_spec_witness :
    (ResArea.binEdges [0, 1, 3]).length = 4
    ∧ (ResArea.binEdges [0, 1, 3]).getD 1 0
        = (([0, 1, 3] : List ℚ).getD 0 0 + ([0, 1, 3] : List ℚ).getD 1 0) / 2 := by
  have h := bin_edges_spec [0, 1, 3] (by norm_num)
    (by
      intro i hi
      simp only [List.length_cons, List.length_nil] at hi
      have hc : i = 0 ∨ i = 1 := by omega
      rcases hc with rfl | rfl <;>
        norm_num [List.getD_cons_zero, List.getD_cons_succ])
  exact ⟨h.1, h.2.2.1 1 (by norm_num) (by norm_num)⟩

/-- C9 (amended): every sigma/mean (RMS/mean) division in the modelled
resolution computations is guarded, so no ZeroDivisionError can occur; at the
guarded expression sites the resolution falls back to 0.0 on a zero mean,
while `compute_resolution_points` of Test_LED_Analysis/plot_resolution_vs_voltage.py
instead skips the file (records no resolution point) when the histogram mean
is zero. -/
theorem resolution_divisions_guarded :
    (∀ mean rms : ℚ, ∃ v, TLAHist.resolution mean rms = .ok v)
    ∧ (∀ rms : ℚ, TLAHist.resolution 0 rms = .ok 0)
    ∧ (∀ sumw sumwx sumwx2 : ℚ, ∀ sq : ℚ → ℚ, ∃ v,
        AmpHists.resolution sumw sumwx sumwx2 sq = .ok v)
    ∧ (∀ m s : ℚ, ∃ v, AmpHists.resolution_fit m s = .ok v)
    ∧ (∀ s : ℚ, AmpHists.resolution_fit 0 s = .ok 0)
    ∧ (∀ m r : ℚ, ∃ v, ResArea.resolution_rms m r = .ok v)
    ∧ (∀ r : ℚ, ResArea.resolution_rms 0 r = .ok 0)
    ∧ (∀ m s : ℚ, ∃ v, ResArea.resolution_fit m s = .ok v)
    ∧ (∀ s : ℚ, ResArea.resolution_fit 0 s = .ok 0)
    ∧ (∀ sigma sigma_err mu mu_err : Option ℚ, ∀ sq : ℚ → ℚ, ∃ v,
        OscRes.res_and_err_from_sigma_mu sigma sigma_err mu mu_err sq = .ok v)
    ∧ (∀ sigma sigma_err mu_err : Option ℚ, ∀ sq : ℚ → ℚ,
        OscRes.res_and_err_from_sigma_mu sigma sigma_err (some 0) mu_err sq
          = .ok (0, 0))
    ∧ (∀ mean rms me re : ℚ, ∀ sq : ℚ → ℚ, ∃ v,
        TLARes.compute_resolution_point mean rms me re sq = .ok v)
    ∧ (∀ rms me re : ℚ, ∀ sq : ℚ → ℚ,
        TLARes.compute_resolution_point 0 rms me re sq = .ok none) := by
  refine ⟨?_, ?_, ?_, ?_, ?_, ?_, ?_, ?_, ?_, ?_, ?_, ?_, ?_⟩
  · intro mean rms
    by_cases h : mean = 0 <;> simp [TLAHist.resolution, Py.pydiv, h]
  · intro rms
    simp [TLAHist.resolution]
  · intro sumw sumwx sumwx2 sq
    by_cases h : 0 < sumw
    · have h0 : sumw ≠ 0 := h.ne'
      by_cases hm : sumwx / sumw = 0 <;>
        simp [AmpHists.resolution, Py.pydiv, h, h0, hm, Except.bind]
    · simp [AmpHists.resolution, h]
  · intro m s
    by_cases h : m = 0 <;> simp [AmpHists.resolution_fit, Py.pydiv, h]
  · intro s
    simp [AmpHists.resolution_fit]
  · intro m r
    by_cases h : m = 0 <;> simp [ResArea.resolution_rms, Py.pydiv, h]
  · intro r
    simp [ResArea.resolution_rms]
  · intro m s
    by_cases h : m = 0 <;> simp [ResArea.resolution_fit, Py.pydiv, h]
  · intro s
    simp [ResArea.resolution_fit]
  · intro sigma sigma_err mu mu_err sq
    by_cases hg : mu = some 0 ∨ sigma = none ∨ mu = none
    · simp [OscRes.res_and_err_from_sigma_mu, hg]
    · push_neg at hg
      obtain ⟨hmu0, hsig, hmun⟩ := hg
      rcases sigma with _ | s
      · exact absurd rfl hsig
      rcases mu with _ | m
      · exact absurd rfl hmun
      have hm : m ≠ 0 := fun h => hmu0 (by rw [h])
      have hc : ¬((some m : Option ℚ) = some 0 ∨ (some s : Option ℚ) = none
          ∨ (some m : Option ℚ) = none) := by
        simp [hm]
      by_cases hs0 : s = 0
      · simp [OscRes.res_and_err_from_sigma_mu, hc, Py.pydiv, hm, hs0,
          Except.bind]
      · by_cases he1 : sigma_err = none <;> by_cases he2 : mu_err = none <;>
          simp [OscRes.res_and_err_from_sigma_mu, hc, Py.pydiv, hm, hs0,
            he1, he2, Except.bind, Except.map]
  · intro sigma sigma_err mu_err sq
    simp [OscRes.res_and_err_from_sigma_mu]
  · intro mean rms me re sq
    by_cases h : mean = 0
    · simp [TLARes.compute_resolution_point, h]
    · by_cases hr : 0 < rms
      · have hr0 : rms ≠ 0 := hr.ne'
        simp [TLARes.compute_resolution_point, Py.pydiv, h, hr, hr0,
          Except.bind, Except.map]
      · simp [TLARes.compute_resolution_point, Py.pydiv, h, hr,
          Except.bind, Except.map]
  · intro rms me re sq
    simp [TLARes.compute_resolution_point]

/-- Counterexample for C9 as stated: in `compute_resolution_points` of
Test_LED_Analysis/plot_resolution_vs_voltage.py a zero mean does NOT yield a
resolution of 0.0 — the file is skipped and no resolution point exists at
all. -/
theorem resolution_zero_mean_skips_point :
    TLARes.compute_resolution_point 0 1 1 1 (fun q => q) = .ok none
    ∧ (Except.ok (none : Option (ℚ × ℚ)) : Except String (Option (ℚ × ℚ)))
        ≠ .ok (some (0, 0)) := by
  refine ⟨by simp [TLARes.compute_resolution_point], by simp⟩

theorem pyInt_intCast (n : ℤ) : Py.pyInt (n : ℚ) = n := by
  rw [Py.pyInt]
  by_cases h : (0 : ℚ) ≤ (n : ℚ)
  · rw [if_pos h, Int.floor_intCast]
  · rw [if_neg h, ← Int.cast_neg, Int.floor_intCast]
    ring

theorem pyMod_sample (k : ℤ) (hk0 : 0 ≤ k) (hk : k < 16) (s : ℕ) :
    Py.pyMod ((k : ℚ) * (25 / 16) + (s : ℚ) * 25) 25 = (k : ℚ) * (25 / 16) := by
  rw [Py.pyMod]
  have hdiv : ((k : ℚ) * (25 / 16) + (s : ℚ) * 25) / 25 = (k : ℚ) / 16 + (s : ℚ) := by
    ring
  rw [hdiv]
  have hfl : ⌊(k : ℚ) / 16 + (s : ℚ)⌋ = (s : ℤ) := by
    rw [show ((s : ℚ)) = (((s : ℤ) : ℚ)) by push_cast; ring, Int.floor_add_int]
    have h0 : ⌊(k : ℚ) / 16⌋ = 0 := by
      rw [Int.floor_eq_zero_iff]
      constructor
      · exact div_nonneg (by exact_mod_cast hk0) (by norm_num)
      · rw [div_lt_one (by norm_num)]
        exact_mod_cast hk
    rw [h0, zero_add]
  rw [hfl]
  push_cast
  ring

theorem phase_offseted_eq (p : ℕ) (hp : p < 16) :
    DAQ.phase_offseted p = ((p : ℤ) - 7) % 16 := by
  simp only [DAQ.phase_offseted, DAQ.phase_offset]
  split <;> omega

/-- C8: for every phase setting `p ≤ 15` and sample index `s ≤ machine_gun`,
the phase value the CSV writer reconstructs from the recorded time
`((p - 7) mod 16) * (25/16) + s * 25` equals `p` again. -/
theorem phase_roundtrip (p : ℕ) (hp : p ≤ 15) (s : ℕ) (_hs : s ≤ DAQ.machine_gun) :
    DAQ.reconstructPhase (DAQ.sampleTime p s) = (p : ℤ) := by
  have hp16 : p < 16 := by omega
  have hoff := phase_offseted_eq p hp16
  have h0 : 0 ≤ DAQ.phase_offseted p := by
    rw [hoff]
    omega
  have h16 : DAQ.phase_offseted p < 16 := by
    rw [hoff]
    omega
  rw [DAQ.reconstructPhase, DAQ.sampleTime, DAQ.phase_time_interval,
    DAQ.sample_time_interval, pyMod_sample _ h0 h16 s]
  have hdiv2 : ((DAQ.phase_offseted p : ℚ) * (25 / 16)) / (25 / 16)
      = ((DAQ.phase_offseted p : ℚ)) := by
    field_simp
  rw [hdiv2]
  have hcast : ((DAQ.phase_offseted p : ℚ)) + (DAQ.phase_offset : ℚ)
      = (((DAQ.phase_offseted p + DAQ.phase_offset : ℤ)) : ℚ) := by
    push_cast
    ring
  rw [hcast, pyInt_intCast, hoff, DAQ.phase_offset]
  omega

/-- Witness for C8 at phase 12, sample index 0. -/
theorem phase_roundtrip_witness :
    (12 : ℕ) ≤ 15 ∧ (0 : ℕ) ≤ DAQ.machine_gun
    ∧ DAQ.reconstructPhase (DAQ.sampleTime 12 0) = 12 :=
  ⟨by norm_num, Nat.zero_le _,
    phase_roundtrip 12 (by norm_num) 0 (Nat.zero_le _)⟩

theorem flatMap_perm_congr (l : List α) (f g : α → List β)
    (h : ∀ a ∈ l, (f a).Perm (g a)) : (l.flatMap f).Perm (l.flatMap g) := by
  induction l with
  | nil => simp
  | cons a as ih =>
    simp only [List.flatMap_cons]
    exact (h a (List.mem_cons_self a as)).append
      (ih (fun b hb => h b (List.mem_cons_of_mem a hb)))

theorem channelRows_perm (decompress : ℚ → ℚ) (chn : ℕ)
    (entries : List (ℚ × DAQ.Sample)) :
    (DAQ.channelRows decompress chn entries).Perm
      (entries.map (DAQ.csvRow decompress chn)) := by
  cases entries with
  | nil => simp [DAQ.channelRows]
  | cons a rest =>
    simp only [DAQ.channelRows, List.isEmpty_cons, Bool.false_eq_true,
      if_false, DAQ.sortEntries]
    exact (Py.sSort_perm DAQ.entryLe (a :: rest)).map (DAQ.csvRow decompress chn)

theorem phase_settings_lt_16 : ∀ p ∈ DAQ.phase_settings, p < 16 := by decide

/-- C3: for every phase of the scan list and every scanned channel
`asic * 76 + chn_asic`, a (time, ADC, TOT, ToA) sample is recorded at time
`((phase - 7) mod 16) * (25/16) + sample_index * 25` only when the channel is
in neither `channel_not_used` nor `dead_channel_list` and the ADC sample is
nonzero, and the one CSV file written consists of the header row
["Channel", "Time", "Phase", "ADC", "TOT_10bit", "TOT_12bit", "ToA"]
followed by exactly one data row per recorded sample. -/
theorem csv_scan_spec (cnu dcl : List ℕ) (inj : ℕ → ℕ → List DAQ.Sample)
    (decompress : ℚ → ℚ) :
    (DAQ.csvFile cnu dcl inj decompress).head? = some DAQ.csvHeader
    ∧ (∀ chn, ∀ e ∈ DAQ.phaseScanEntries cnu dcl inj chn,
        chn ∈ DAQ.scannedChns ∧ chn ∉ cnu ∧ chn ∉ dcl ∧ e.2.adc ≠ 0
        ∧ ∃ p ∈ DAQ.phase_settings, ∃ i, (inj p chn).get? i = some e.2
            ∧ e.1 = ((((p : ℤ) - 7) % 16 : ℤ) : ℚ) * (25 / 16) + (i : ℚ) * 25)
    ∧ ((DAQ.csvFile cnu dcl inj decompress).drop 1).Perm
        (DAQ.scannedChns.flatMap (fun chn =>
          (DAQ.phaseScanEntries cnu dcl inj chn).map (DAQ.csvRow decompress chn))) := by
  refine ⟨rfl, ?_, ?_⟩
  · intro chn e he
    rw [DAQ.phaseScanEntries] at he
    split at he
    · next hcond =>
      obtain ⟨hscan, hcnu, hdcl⟩ := hcond
      obtain ⟨p, hp, hrec⟩ := List.mem_flatMap.mp he
      rw [DAQ.recordPhaseChannel] at hrec
      obtain ⟨is, hmem, heq⟩ := List.mem_filterMap.mp hrec
      by_cases hz : is.2.adc = 0
      · rw [if_pos hz] at heq
        cases heq
      · rw [if_neg hz] at heq
        obtain rfl : (DAQ.sampleTime p is.1, is.2) = e := Option.some.inj heq
        refine ⟨hscan, hcnu, hdcl, hz, p, hp, is.1, ?_, ?_⟩
        · rw [List.get?_eq_getElem?]
          exact List.mem_enum_iff_getElem?.mp hmem
        · show DAQ.sampleTime p is.1 = _
          rw [DAQ.sampleTime, DAQ.phase_time_interval, DAQ.sample_time_interval,
            phase_offseted_eq p (phase_settings_lt_16 p hp)]
    · next =>
      cases he
  · show (DAQ.scannedChns.flatMap (fun chn =>
      DAQ.channelRows decompress chn (DAQ.phaseScanEntries cnu dcl inj chn))).Perm _
    exact flatMap_perm_congr _ _ _
      (fun chn _ => channelRows_perm decompress chn _)

/-- Witness for C3: with no excluded channels and the concrete data-taking
oracle `injW`, channel 0 records a sample at time 225/16 (phase 0, sample
index 0), and the theorem yields its guarantees for it. -/
theorem csv_scan_spec_witness :
    (0 : ℕ) ∈ DAQ.scannedChns
    ∧ (0 : ℕ) ∉ ([] : List ℕ)
    ∧ (0 : ℕ) ∉ ([] : List ℕ)
    ∧ ((⟨5, 0, 0, 0, 0, 0⟩ : DAQ.Sample).adc ≠ 0)
    ∧ ∃ p ∈ DAQ.phase_settings, ∃ i,
        (DAQ.injW p 0).get? i = some (⟨5, 0, 0, 0, 0, 0⟩ : DAQ.Sample)
        ∧ (225 / 16 : ℚ) = ((((p : ℤ) - 7) % 16 : ℤ) : ℚ) * (25 / 16) + (i : ℚ) * 25 := by
  have hs : DAQ.sampleTime 0 0 = 225 / 16 := by
    rw [DAQ.sampleTime, DAQ.phase_time_interval, DAQ.sample_time_interval]
    norm_num [DAQ.phase_offseted, DAQ.phase_offset]
  have hmem : ((225 / 16 : ℚ), (⟨5, 0, 0, 0, 0, 0⟩ : DAQ.Sample))
      ∈ DAQ.phaseScanEntries [] [] DAQ.injW 0 := by
    rw [DAQ.phaseScanEntries, if_pos ⟨by decide, by simp, by simp⟩]
    apply List.mem_flatMap.mpr
    refine ⟨0, by decide, ?_⟩
    rw [DAQ.recordPhaseChannel]
    apply List.mem_filterMap.mpr
    refine ⟨(0, ⟨5, 0, 0, 0, 0, 0⟩), ?_, ?_⟩
    · simp [DAQ.injW, List.enum, List.enumFrom]
    · rw [if_neg (by simp), hs]
  exact (csv_scan_spec [] [] DAQ.injW id).2.1 0 (225 / 16, ⟨5, 0, 0, 0, 0, 0⟩) hmem

theorem emitWrites_writes (ws : List DAQ.I2CWrite) (ora : ℕ → Bool) (n : ℕ) :
    DAQ.evWrites (DAQ.emitWrites ws ora n).1 = ws := by
  induction ws generalizing n with
  | nil => simp [DAQ.emitWrites, DAQ.evWrites]
  | cons w rest ih =>
    by_cases h : ora n <;>
      simp [DAQ.emitWrites, DAQ.evWrites, h, List.filterMap_append] <;>
      simpa [DAQ.evWrites] using ih (n + 1)

theorem okSeq_append : ∀ {a b : List DAQ.Ev},
    DAQ.okSeq a → DAQ.okSeq b → DAQ.okSeq (a ++ b) := by
  intro a
  induction a with
  | nil =>
    intro b _ hb
    simpa using hb
  | cons e rest ih =>
    intro b ha hb
    cases e with
    | i2c w ok =>
      cases ok with
      | false =>
        rw [DAQ.okSeq] at ha
        obtain ⟨h1, h2⟩ := ha
        rw [List.cons_append, DAQ.okSeq]
        refine ⟨?_, ih h2 hb⟩
        cases rest with
        | nil => cases h1
        | cons r rs => simpa using h1
      | true =>
        simp only [List.cons_append]
        simp only [DAQ.okSeq, forall_const] at ha ⊢
        exact ih ha hb
    | warn =>
      simp only [List.cons_append]
      simp only [DAQ.okSeq, forall_const] at ha ⊢
      exact ih ha hb
    | gen g =>
      simp only [List.cons_append]
      simp only [DAQ.okSeq, forall_const] at ha ⊢
      exact ih ha hb
    | inj =>
      simp only [List.cons_append]
      simp only [DAQ.okSeq, forall_const] at ha ⊢
      exact ih ha hb

theorem okSeq_get {evs : List DAQ.Ev} (h : DAQ.okSeq evs) :
    ∀ k w, evs.get? k = some (DAQ.Ev.i2c w false) →
      evs.get? (k + 1) = some DAQ.Ev.warn := by
  induction evs with
  | nil =>
    intro k w hk
    simp [List.get?] at hk
  | cons e rest ih =>
    intro k w hk
    cases k with
    | zero =>
      simp only [List.get?] at hk
      obtain rfl := Option.some.inj hk
      rw [DAQ.okSeq] at h
      obtain ⟨h1, _⟩ := h
      simpa [List.get?, ← List.head?_eq_getElem?] using h1
    | succ k2 =>
      have hrest : DAQ.okSeq rest := by
        cases e with
        | i2c w2 ok =>
          cases ok with
          | false =>
            rw [DAQ.okSeq] at h
            exact h.2
          | true =>
            simp only [DAQ.okSeq] at h
            exact h
        | warn =>
          simp only [DAQ.okSeq] at h
          exact h
        | gen g =>
          simp only [DAQ.okSeq] at h
          exact h
        | inj =>
          simp only [DAQ.okSeq] at h
          exact h
      simp only [List.get?] at hk ⊢
      exact ih hrest k2 w hk

theorem okSeq_block (w : DAQ.I2CWrite) (b : Bool) :
    DAQ.okSeq (if b then [DAQ.Ev.i2c w true] else [DAQ.Ev.i2c w false, DAQ.Ev.warn]) := by
  cases b <;> simp [DAQ.okSeq]

theorem okSeq_emitWrites (ws : List DAQ.I2CWrite) (ora : ℕ → Bool) (n : ℕ) :
    DAQ.okSeq (DAQ.emitWrites ws ora n).1 := by
  induction ws generalizing n with
  | nil => simp [DAQ.emitWrites, DAQ.okSeq]
  | cons w rest ih =>
    exact okSeq_append (okSeq_block w (ora n)) (ih (n + 1))

theorem okSeq_runRegs (i2cAddr : String → ℕ) (a : ℕ) (ora : ℕ → Bool) :
    ∀ (regs : List (String × List ℕ)) (n : ℕ),
      DAQ.okSeq (DAQ.runRegs i2cAddr a ora regs n).1 := by
  intro regs
  induction regs with
  | nil =>
    intro n
    simp [DAQ.runRegs, DAQ.okSeq]
  | cons kv rest ih =>
    intro n
    obtain ⟨k, v⟩ := kv
    cases hka : DAQ.keyAction i2cAddr a k v with
    | error u => simp [DAQ.runRegs, hka, DAQ.okSeq]
    | ok o =>
      cases o with
      | none =>
        simpa [DAQ.runRegs, hka] using ih n
      | some w =>
        simp only [DAQ.runRegs, hka]
        exact okSeq_append (okSeq_block w (ora n)) (ih (n + 1))

theorem okSeq_runCfg (i2cAddr : String → ℕ) (ora : ℕ → Bool) :
    ∀ (cfg : List (List (String × List ℕ))) (a n : ℕ),
      DAQ.okSeq (DAQ.runCfg i2cAddr ora a cfg n).1 := by
  intro cfg
  induction cfg with
  | nil =>
    intro a n
    simp [DAQ.runCfg, DAQ.okSeq]
  | cons regs rest ih =>
    intro a n
    rw [DAQ.runCfg]
    by_cases h : (DAQ.runRegs i2cAddr a ora regs n).2.2
    · rw [if_pos h]
      exact okSeq_append (okSeq_runRegs i2cAddr a ora regs n) (ih (a + 1) _)
    · rw [if_neg h]
      exact okSeq_runRegs i2cAddr a ora regs n

theorem okSeq_runPhase (subTop : ℕ) (ora : ℕ → Bool) (p : ℕ) (st : DAQ.TopRegs)
    (n : ℕ) : DAQ.okSeq (DAQ.runPhase subTop ora p st n).1 := by
  cases hu : DAQ.updPhase p st with
  | none => simp [DAQ.runPhase, hu, DAQ.okSeq]
  | some st2 =>
    simp only [DAQ.runPhase, hu]
    exact okSeq_append
      (okSeq_append (okSeq_emitWrites _ ora n) (by simp [DAQ.okSeq]))
      (okSeq_emitWrites _ ora _)

theorem okSeq_runPhases (subTop : ℕ) (ora : ℕ → Bool) :
    ∀ (ps : List ℕ) (st : DAQ.TopRegs) (n : ℕ),
      DAQ.okSeq (DAQ.runPhases subTop ora ps st n).1 := by
  intro ps
  induction ps with
  | nil =>
    intro st n
    simp [DAQ.runPhases, DAQ.okSeq]
  | cons p ps2 ih =>
    intro st n
    rw [DAQ.runPhases]
    cases hu : (DAQ.runPhase subTop ora p st n).2.2 with
    | none => exact okSeq_runPhase subTop ora p st n
    | some st2 => exact okSeq_append (okSeq_runPhase subTop ora p st n) (ih st2 _)

theorem okSeq_scriptRun (i2cAddr : String → ℕ) (subTop : ℕ)
    (cfg : List (List (String × List ℕ))) (st : DAQ.TopRegs) (genOk : Bool)
    (ora : ℕ → Bool) :
    DAQ.okSeq (DAQ.scriptRun i2cAddr subTop cfg st genOk ora).1 := by
  rw [DAQ.scriptRun]
  by_cases h : (DAQ.runCfg i2cAddr ora 0 cfg 0).2.2
  · rw [if_pos h]
    refine okSeq_append (okSeq_append (okSeq_runCfg i2cAddr ora cfg 0 0) ?_)
      (okSeq_runPhases subTop ora DAQ.phase_settings st _)
    cases genOk <;> simp [DAQ.okSeq]
  · rw [if_neg h]
    exact okSeq_runCfg i2cAddr ora cfg 0 0

theorem keyAction_retry {i2cAddr : String → ℕ} {a : ℕ} {k : String}
    {v : List ℕ} {w : DAQ.I2CWrite}
    (h : DAQ.keyAction i2cAddr a k v = .ok (some w)) :
    w.retry = DAQ.i2c_retry := by
  rw [DAQ.keyAction] at h
  split_ifs at h with h1 h2 h3 h4
  · cases hk : DAQ.channelKeyClear k with
    | none =>
      rw [hk] at h
      cases h
    | some kc =>
      rw [hk] at h
      obtain rfl : (⟨a, i2cAddr kc, 0, v, DAQ.i2c_retry⟩ : DAQ.I2CWrite) = w := by
        simpa using h
      rfl
  · obtain rfl : (⟨a, i2cAddr (DAQ.cleanKey k), 0, v, DAQ.i2c_retry⟩ : DAQ.I2CWrite) = w := by
      simpa using h
    rfl
  · cases hs : (Py.pySet v 8 0xA0).bind (fun v1 => (Py.pySet v1 9 0xCA).bind (fun v2 =>
        (Py.pySet v2 10 0x42).bind (fun v3 => Py.pySet v3 14 0x6F))) with
    | none =>
      rw [hs] at h
      cases h
    | some v4 =>
      rw [hs] at h
      obtain rfl : (⟨a, i2cAddr (DAQ.cleanKey k), 0, v4, DAQ.i2c_retry⟩ : DAQ.I2CWrite) = w := by
        simpa using h
      rfl
  · cases hs : (Py.pySet v 4 0xC0).bind (fun v1 => Py.pySet v1 25 0x02) with
    | none =>
      rw [hs] at h
      cases h
    | some v2 =>
      rw [hs] at h
      obtain rfl : (⟨a, i2cAddr (DAQ.cleanKey k), 0, v2, DAQ.i2c_retry⟩ : DAQ.I2CWrite) = w := by
        simpa using h
      rfl
  · simp at h

theorem retry_block (w : DAQ.I2CWrite) (b : Bool) (hw : w.retry = DAQ.i2c_retry) :
    ∀ w2 ∈ DAQ.evWrites
      (if b then [DAQ.Ev.i2c w true] else [DAQ.Ev.i2c w false, DAQ.Ev.warn]),
      w2.retry = DAQ.i2c_retry := by
  cases b <;> simp [DAQ.evWrites] <;> exact hw

theorem retry_emitWrites (ws : List DAQ.I2CWrite) (ora : ℕ → Bool) (n : ℕ)
    (hws : ∀ w ∈ ws, w.retry = DAQ.i2c_retry) :
    ∀ w2 ∈ DAQ.evWrites (DAQ.emitWrites ws ora n).1, w2.retry = DAQ.i2c_retry := by
  rw [emitWrites_writes]
  exact hws

theorem retry_runRegs (i2cAddr : String → ℕ) (a : ℕ) (ora : ℕ → Bool) :
    ∀ (regs : List (String × List ℕ)) (n : ℕ),
      ∀ w2 ∈ DAQ.evWrites (DAQ.runRegs i2cAddr a ora regs n).1,
        w2.retry = DAQ.i2c_retry := by
  intro regs
  induction regs with
  | nil =>
    intro n
    simp [DAQ.runRegs, DAQ.evWrites]
  | cons kv rest ih =>
    intro n
    obtain ⟨k, v⟩ := kv
    cases hka : DAQ.keyAction i2cAddr a k v with
    | error u => simp [DAQ.runRegs, hka, DAQ.evWrites]
    | ok o =>
      cases o with
      | none =>
        simpa [DAQ.runRegs, hka] using ih n
      | some w =>
        simp only [DAQ.runRegs, hka]
        intro w2 hw2
        rw [DAQ.evWrites, List.filterMap_append] at hw2
        rcases List.mem_append.mp hw2 with hl | hr
        · exact retry_block w (ora n) (keyAction_retry hka) w2 hl
        · exact ih (n + 1) w2 hr

theorem retry_runCfg (i2cAddr : String → ℕ) (ora : ℕ → Bool) :
    ∀ (cfg : List (List (String × List ℕ))) (a n : ℕ),
      ∀ w2 ∈ DAQ.evWrites (DAQ.runCfg i2cAddr ora a cfg n).1,
        w2.retry = DAQ.i2c_retry := by
  intro cfg
  induction cfg with
  | nil =>
    intro a n
    simp [DAQ.runCfg, DAQ.evWrites]
  | cons regs rest ih =>
    intro a n
    rw [DAQ.runCfg]
    by_cases h : (DAQ.runRegs i2cAddr a ora regs n).2.2
    · rw [if_pos h]
      intro w2 hw2
      rw [DAQ.evWrites, List.filterMap_append] at hw2
      rcases List.mem_append.mp hw2 with hl | hr
      · exact retry_runRegs i2cAddr a ora regs n w2 hl
      · exact ih (a + 1) _ w2 hr
    · rw [if_neg h]
      exact retry_runRegs i2cAddr a ora regs n

theorem retry_runPhase (subTop : ℕ) (ora : ℕ → Bool) (p : ℕ) (st : DAQ.TopRegs)
    (n : ℕ) :
    ∀ w2 ∈ DAQ.evWrites (DAQ.runPhase subTop ora p st n).1,
      w2.retry = DAQ.i2c_retry := by
  cases hu : DAQ.updPhase p st with
  | none => simp [DAQ.runPhase, hu, DAQ.evWrites]
  | some st2 =>
    simp only [DAQ.runPhase, hu]
    intro w2 hw2
    rw [DAQ.evWrites, List.filterMap_append, List.filterMap_append] at hw2
    rcases List.mem_append.mp hw2 with hl | hr
    · rcases List.mem_append.mp hl with hll | hlr
      · refine retry_emitWrites _ ora n ?_ w2 hll
        intro w3 hw3
        obtain ⟨a2, _, rfl⟩ := List.mem_map.mp hw3
        rfl
      · simp [DAQ.evWrites] at hlr
    · refine retry_emitWrites _ ora _ ?_ w2 hr
      intro w3 hw3
      obtain ⟨a2, _, rfl⟩ := List.mem_map.mp hw3
      rfl

theorem retry_runPhases (subTop : ℕ) (ora : ℕ → Bool) :
    ∀ (ps : List ℕ) (st : DAQ.TopRegs) (n : ℕ),
      ∀ w2 ∈ DAQ.evWrites (DAQ.runPhases subTop ora ps st n).1,
        w2.retry = DAQ.i2c_retry := by
  intro ps
  induction ps with
  | nil =>
    intro st n
    simp [DAQ.runPhases, DAQ.evWrites]
  | cons p ps2 ih =>
    intro st n
    rw [DAQ.runPhases]
    cases hu : (DAQ.runPhase subTop ora p st n).2.2 with
    | none => exact retry_runPhase subTop ora p st n
    | some st2 =>
      intro w2 hw2
      rw [DAQ.evWrites, List.filterMap_append] at hw2
      rcases List.mem_append.mp hw2 with hl | hr
      · exact retry_runPhase subTop ora p st n w2 hl
      · exact ih st2 _ w2 hr

theorem retry_scriptRun (i2cAddr : String → ℕ) (subTop : ℕ)
    (cfg : List (List (String × List ℕ))) (st : DAQ.TopRegs) (genOk : Bool)
    (ora : ℕ → Bool) :
    ∀ w2 ∈ DAQ.evWrites (DAQ.scriptRun i2cAddr subTop cfg st genOk ora).1,
      w2.retry = DAQ.i2c_retry := by
  rw [DAQ.scriptRun]
  by_cases h : (DAQ.runCfg i2cAddr ora 0 cfg 0).2.2
  · rw [if_pos h]
    intro w2 hw2
    rw [DAQ.evWrites, List.filterMap_append, List.filterMap_append] at hw2
    rcases List.mem_append.mp hw2 with hl | hr
    · rcases List.mem_append.mp hl with hll | hlr
      · exact retry_runCfg i2cAddr ora cfg 0 0 w2 hll
      · cases genOk <;> simp [DAQ.evWrites] at hlr
    · exact retry_runPhases subTop ora DAQ.phase_settings st _ w2 hr
  · rw [if_neg h]
    exact retry_runCfg i2cAddr ora cfg 0 0

theorem evWrites_append (a b : List DAQ.Ev) :
    DAQ.evWrites (a ++ b) = DAQ.evWrites a ++ DAQ.evWrites b := by
  simp [DAQ.evWrites, List.filterMap_append]

theorem block_writes (w : DAQ.I2CWrite) (b : Bool) :
    DAQ.evWrites
      (if b then [DAQ.Ev.i2c w true] else [DAQ.Ev.i2c w false, DAQ.Ev.warn])
      = [w] := by
  cases b <;> simp [DAQ.evWrites]

theorem runRegs_indep (i2cAddr : String → ℕ) (a : ℕ) :
    ∀ (regs : List (String × List ℕ)) (ora ora2 : ℕ → Bool) (n n2 : ℕ),
      DAQ.evWrites (DAQ.runRegs i2cAddr a ora regs n).1
        = DAQ.evWrites (DAQ.runRegs i2cAddr a ora2 regs n2).1
      ∧ (DAQ.runRegs i2cAddr a ora regs n).2.2
        = (DAQ.runRegs i2cAddr a ora2 regs n2).2.2 := by
  intro regs
  induction regs with
  | nil =>
    intro ora ora2 n n2
    simp [DAQ.runRegs]
  | cons kv rest ih =>
    intro ora ora2 n n2
    obtain ⟨k, v⟩ := kv
    cases hka : DAQ.keyAction i2cAddr a k v with
    | error u => simp [DAQ.runRegs, hka]
    | ok o =>
      cases o with
      | none =>
        simp only [DAQ.runRegs, hka]
        exact ih ora ora2 n n2
      | some w =>
        obtain ⟨ih1, ih2⟩ := ih ora ora2 (n + 1) (n2 + 1)
        simp only [DAQ.runRegs, hka]
        exact ⟨by rw [evWrites_append, evWrites_append, block_writes,
          block_writes, ih1], ih2⟩

theorem runCfg_indep (i2cAddr : String → ℕ) :
    ∀ (cfg : List (List (String × List ℕ))) (ora ora2 : ℕ → Bool) (a n n2 : ℕ),
      DAQ.evWrites (DAQ.runCfg i2cAddr ora a cfg n).1
        = DAQ.evWrites (DAQ.runCfg i2cAddr ora2 a cfg n2).1
      ∧ (DAQ.runCfg i2cAddr ora a cfg n).2.2
        = (DAQ.runCfg i2cAddr ora2 a cfg n2).2.2 := by
  intro cfg
  induction cfg with
  | nil =>
    intro ora ora2 a n n2
    simp [DAQ.runCfg]
  | cons regs rest ih =>
    intro ora ora2 a n n2
    obtain ⟨h1, h2⟩ := runRegs_indep i2cAddr a regs ora ora2 n n2
    rw [DAQ.runCfg, DAQ.runCfg]
    by_cases hf : (DAQ.runRegs i2cAddr a ora regs n).2.2
    · have hf2 : (DAQ.runRegs i2cAddr a ora2 regs n2).2.2 := by
        rw [← h2]
        exact hf
      rw [if_pos hf, if_pos hf2]
      obtain ⟨ih1, ih2⟩ := ih ora ora2 (a + 1)
        (DAQ.runRegs i2cAddr a ora regs n).2.1
        (DAQ.runRegs i2cAddr a ora2 regs n2).2.1
      exact ⟨by rw [evWrites_append, evWrites_append, h1, ih1], ih2⟩
    · have hf2 : ¬ (DAQ.runRegs i2cAddr a ora2 regs n2).2.2 := by
        rw [← h2]
        exact hf
      rw [if_neg hf, if_neg hf2]
      exact ⟨h1, rfl⟩

theorem runPhase_indep (subTop : ℕ) (p : ℕ) (st : DAQ.TopRegs)
    (ora ora2 : ℕ → Bool) (n n2 : ℕ) :
    DAQ.evWrites (DAQ.runPhase subTop ora p st n).1
      = DAQ.evWrites (DAQ.runPhase subTop ora2 p st n2).1
    ∧ (DAQ.runPhase subTop ora p st n).2.2
      = (DAQ.runPhase subTop ora2 p st n2).2.2 := by
  cases hu : DAQ.updPhase p st with
  | none => simp [DAQ.runPhase, hu]
  | some st2 =>
    simp only [DAQ.runPhase, hu]
    refine ⟨?_, trivial⟩
    rw [evWrites_append, evWrites_append, evWrites_append, evWrites_append,
      emitWrites_writes, emitWrites_writes, emitWrites_writes, emitWrites_writes]

theorem runPhases_indep (subTop : ℕ) :
    ∀ (ps : List ℕ) (st : DAQ.TopRegs) (ora ora2 : ℕ → Bool) (n n2 : ℕ),
      DAQ.evWrites (DAQ.runPhases subTop ora ps st n).1
        = DAQ.evWrites (DAQ.runPhases subTop ora2 ps st n2).1
      ∧ (DAQ.runPhases subTop ora ps st n).2.2
        = (DAQ.runPhases subTop ora2 ps st n2).2.2 := by
  intro ps
  induction ps with
  | nil =>
    intro st ora ora2 n n2
    simp [DAQ.runPhases]
  | cons p ps2 ih =>
    intro st ora ora2 n n2
    cases hu : DAQ.updPhase p st with
    | none =>
      have hr : (DAQ.runPhase subTop ora p st n).2.2 = none := by
        simp [DAQ.runPhase, hu]
      have hr2 : (DAQ.runPhase subTop ora2 p st n2).2.2 = none := by
        simp [DAQ.runPhase, hu]
      simp only [DAQ.runPhases, hr, hr2]
      exact ⟨(runPhase_indep subTop p st ora ora2 n n2).1, trivial⟩
    | some st2 =>
      have hr : (DAQ.runPhase subTop ora p st n).2.2 = some st2 := by
        simp [DAQ.runPhase, hu]
      have hr2 : (DAQ.runPhase subTop ora2 p st n2).2.2 = some st2 := by
        simp [DAQ.runPhase, hu]
      simp only [DAQ.runPhases, hr, hr2]
      obtain ⟨ih1, ih2⟩ := ih st2 ora ora2 (DAQ.runPhase subTop ora p st n).2.1
        (DAQ.runPhase subTop ora2 p st n2).2.1
      exact ⟨by rw [evWrites_append, evWrites_append,
        (runPhase_indep subTop p st ora ora2 n n2).1, ih1], ih2⟩

theorem scriptRun_indep (i2cAddr : String → ℕ) (subTop : ℕ)
    (cfg : List (List (String × List ℕ))) (st : DAQ.TopRegs) (genOk : Bool)
    (ora ora2 : ℕ → Bool) :
    DAQ.evWrites (DAQ.scriptRun i2cAddr subTop cfg st genOk ora).1
      = DAQ.evWrites (DAQ.scriptRun i2cAddr subTop cfg st genOk ora2).1
    ∧ (DAQ.scriptRun i2cAddr subTop cfg st genOk ora).2
      = (DAQ.scriptRun i2cAddr subTop cfg st genOk ora2).2 := by
  obtain ⟨hc1, hc2⟩ := runCfg_indep i2cAddr cfg ora ora2 0 0 0
  rw [DAQ.scriptRun, DAQ.scriptRun]
  by_cases hf : (DAQ.runCfg i2cAddr ora 0 cfg 0).2.2
  · have hf2 : (DAQ.runCfg i2cAddr ora2 0 cfg 0).2.2 := by
      rw [← hc2]
      exact hf
    rw [if_pos hf, if_pos hf2]
    obtain ⟨hp1, hp2⟩ := runPhases_indep subTop DAQ.phase_settings st ora ora2
      (DAQ.runCfg i2cAddr ora 0 cfg 0).2.1 (DAQ.runCfg i2cAddr ora2 0 cfg 0).2.1
    exact ⟨by rw [evWrites_append, evWrites_append, evWrites_append,
      evWrites_append, hc1, hp1], hp2⟩
  · have hf2 : ¬ (DAQ.runCfg i2cAddr ora2 0 cfg 0).2.2 := by
      rw [← hc2]
      exact hf
    rw [if_neg hf, if_neg hf2]
    exact ⟨hc1, rfl⟩

/-- C4: every I2C register write the DAQ script issues goes through the
wrapper with `retry = i2c_retry = 50`; a reported failure only inserts a
warning event — the request sequence and the completion flag are identical
for every wrapper-answer oracle, so no failed register write aborts the
configuration pass or the phase-scan loop, and each failing write is
immediately followed by its warning. -/
theorem daq_i2c_writes_spec :
    ∀ (i2cAddr : String → ℕ) (subTop : ℕ) (cfg : List (List (String × List ℕ)))
      (st : DAQ.TopRegs) (genOk : Bool) (ora : ℕ → Bool),
      DAQ.i2c_retry = 50
      ∧ (∀ w ∈ DAQ.evWrites (DAQ.scriptRun i2cAddr subTop cfg st genOk ora).1,
          w.retry = DAQ.i2c_retry)
      ∧ (∀ ora2 : ℕ → Bool,
          DAQ.evWrites (DAQ.scriptRun i2cAddr subTop cfg st genOk ora).1
            = DAQ.evWrites (DAQ.scriptRun i2cAddr subTop cfg st genOk ora2).1
          ∧ (DAQ.scriptRun i2cAddr subTop cfg st genOk ora).2
            = (DAQ.scriptRun i2cAddr subTop cfg st genOk ora2).2)
      ∧ (∀ (k : ℕ) (w : DAQ.I2CWrite),
          (DAQ.scriptRun i2cAddr subTop cfg st genOk ora).1.get? k
            = some (DAQ.Ev.i2c w false) →
          (DAQ.scriptRun i2cAddr subTop cfg st genOk ora).1.get? (k + 1)
            = some DAQ.Ev.warn) := by
  intro i2cAddr subTop cfg st genOk ora
  refine ⟨rfl, retry_scriptRun i2cAddr subTop cfg st genOk ora,
    fun ora2 => scriptRun_indep i2cAddr subTop cfg st genOk ora ora2,
    okSeq_get (okSeq_scriptRun i2cAddr subTop cfg st genOk ora)⟩

/-- Witness for C4: the register write of the `CM_0` block of the concrete
config fixture occurs in the concrete run and carries retry 50. -/
theorem daq_i2c_writes_spec_witness :
    (⟨0, 7, 0, [4, 5], 50⟩ : DAQ.I2CWrite).retry = DAQ.i2c_retry :=
  (daq_i2c_writes_spec DAQ.addrW 3 DAQ.cfgW DAQ.stW true (fun _ => false)).2.1
    ⟨0, 7, 0, [4, 5], 50⟩ (by decide)

theorem keyAction_good (i2cAddr : String → ℕ) (a : ℕ) (kv : String × List ℕ)
    (h : DAQ.goodKV kv) :
    DAQ.keyAction i2cAddr a kv.1 kv.2 = .ok (DAQ.specWrite i2cAddr a kv) := by
  obtain ⟨k, v⟩ := kv
  obtain ⟨h1, h2, h3⟩ := h
  simp only at h1 h2 h3
  rw [DAQ.keyAction, DAQ.specWrite]
  by_cases hc : (Py.pyIn ("Channel_") k || Py.pyIn ("CM_") k
      || Py.pyIn ("CALIB_") k) = true
  · rw [if_pos hc, if_pos hc]
    by_cases hch : Py.pyIn ("Channel_") k = true
    · rw [if_pos hch, if_pos hch]
      obtain ⟨kc, hkc⟩ := Option.isSome_iff_exists.mp (h1 hch)
      rw [hkc]
      rfl
    · rw [if_neg hch, if_neg hch]
      rfl
  · rw [if_neg hc, if_neg hc]
    have hcf : (Py.pyIn ("Channel_") k || Py.pyIn ("CM_") k
        || Py.pyIn ("CALIB_") k) = false := by
      simpa using hc
    by_cases hga : Py.pyIn ("Global_Analog_") k = true
    · rw [if_pos hga, if_pos hga]
      have hlen := h2 hcf hga
      have e8 : Py.pySet v 8 0xA0 = some (v.set 8 0xA0) := by
        rw [Py.pySet, if_pos (by omega)]
      have e9 : Py.pySet (v.set 8 0xA0) 9 0xCA
          = some ((v.set 8 0xA0).set 9 0xCA) := by
        rw [Py.pySet, if_pos (by rw [List.length_set]; omega)]
      have e10 : Py.pySet ((v.set 8 0xA0).set 9 0xCA) 10 0x42
          = some (((v.set 8 0xA0).set 9 0xCA).set 10 0x42) := by
        rw [Py.pySet, if_pos (by rw [List.length_set, List.length_set]; omega)]
      have e14 : Py.pySet (((v.set 8 0xA0).set 9 0xCA).set 10 0x42) 14 0x6F
          = some ((((v.set 8 0xA0).set 9 0xCA).set 10 0x42).set 14 0x6F) := by
        rw [Py.pySet,
          if_pos (by rw [List.length_set, List.length_set, List.length_set]; omega)]
      simp only [e8, e9, e10, e14, Option.bind]
      rfl
    · rw [if_neg hga, if_neg hga]
      by_cases hdh : Py.pyIn ("Digital_Half_") k = true
      · rw [if_pos hdh, if_pos hdh]
        have hlen := h3 hcf (by simpa using hga) hdh
        have e4 : Py.pySet v 4 0xC0 = some (v.set 4 0xC0) := by
          rw [Py.pySet, if_pos (by omega)]
        have e25 : Py.pySet (v.set 4 0xC0) 25 0x02
            = some ((v.set 4 0xC0).set 25 0x02) := by
          rw [Py.pySet, if_pos (by rw [List.length_set]; omega)]
        simp only [e4, e25, Option.bind]
        rfl
      · rw [if_neg hdh, if_neg hdh]

theorem runRegs_good (i2cAddr : String → ℕ) (a : ℕ) (ora : ℕ → Bool) :
    ∀ (regs : List (String × List ℕ)) (n : ℕ),
      (∀ kv ∈ regs, DAQ.goodKV kv) →
      DAQ.evWrites (DAQ.runRegs i2cAddr a ora regs n).1
        = regs.filterMap (DAQ.specWrite i2cAddr a)
      ∧ (DAQ.runRegs i2cAddr a ora regs n).2.2 = true := by
  intro regs
  induction regs with
  | nil =>
    intro n h
    simp [DAQ.runRegs, DAQ.evWrites]
  | cons kv rest ih =>
    intro n h
    have hk := keyAction_good i2cAddr a kv (h kv (List.mem_cons_self _ _))
    have hrest := fun kv2 hkv2 => h kv2 (List.mem_cons_of_mem _ hkv2)
    obtain ⟨k, v⟩ := kv
    cases hsw : DAQ.specWrite i2cAddr a (k, v) with
    | none =>
      rw [hsw] at hk
      simp only [DAQ.runRegs, hk]
      obtain ⟨ih1, ih2⟩ := ih n hrest
      exact ⟨by rw [ih1, List.filterMap_cons_none hsw], ih2⟩
    | some w =>
      rw [hsw] at hk
      simp only [DAQ.runRegs, hk]
      obtain ⟨ih1, ih2⟩ := ih (n + 1) hrest
      constructor
      · rw [evWrites_append, block_writes, ih1, List.filterMap_cons_some hsw]
        rfl
      · exact ih2

theorem runCfg_good (i2cAddr : String → ℕ) (ora : ℕ → Bool) :
    ∀ (cfg : List (List (String × List ℕ))) (a n : ℕ),
      (∀ regs ∈ cfg, ∀ kv ∈ regs, DAQ.goodKV kv) →
      DAQ.evWrites (DAQ.runCfg i2cAddr ora a cfg n).1
        = (cfg.enumFrom a).flatMap
            (fun ar => ar.2.filterMap (DAQ.specWrite i2cAddr ar.1))
      ∧ (DAQ.runCfg i2cAddr ora a cfg n).2.2 = true := by
  intro cfg
  induction cfg with
  | nil =>
    intro a n h
    simp [DAQ.runCfg, DAQ.evWrites]
  | cons regs rest ih =>
    intro a n h
    obtain ⟨h1, h2⟩ := runRegs_good i2cAddr a ora regs n
      (h regs (List.mem_cons_self _ _))
    rw [DAQ.runCfg, if_pos h2]
    obtain ⟨ih1, ih2⟩ := ih (a + 1) (DAQ.runRegs i2cAddr a ora regs n).2.1
      (fun r hr kv hkv => h r (List.mem_cons_of_mem _ hr) kv hkv)
    constructor
    · rw [evWrites_append, h1, ih1, List.enumFrom_cons, List.flatMap_cons]
    · exact ih2

/-- C5: before the phase scan, for each ASIC every `Channel_` / `CM_` /
`CALIB_` register block is written verbatim from the loaded config, every
`Global_Analog_` block is written with bytes 8, 9, 10, 14 overridden to
0xA0, 0xCA, 0x42, 0x6F, every `Digital_Half_` block with bytes 4, 25
overridden to 0xC0, 0x02, and no other register block is written in the
configuration pass. -/
theorem config_pass_register_writes :
    ∀ (i2cAddr : String → ℕ) (cfg : List (List (String × List ℕ)))
      (ora : ℕ → Bool) (n : ℕ),
      (∀ regs ∈ cfg, ∀ kv ∈ regs, DAQ.goodKV kv) →
      DAQ.evWrites (DAQ.runCfg i2cAddr ora 0 cfg n).1
        = cfg.enum.flatMap (fun ar => ar.2.filterMap (DAQ.specWrite i2cAddr ar.1))
      ∧ (DAQ.runCfg i2cAddr ora 0 cfg n).2.2 = true := by
  intro i2cAddr cfg ora n h
  exact runCfg_good i2cAddr ora cfg 0 n h

/-- Witness for C5 on the concrete config fixture: one block of each kind is
written as specified, the `Top` block is not, and the pass completes. -/
theorem config_pass_register_writes_witness :
    DAQ.evWrites (DAQ.runCfg DAQ.addrW (fun _ => true) 0 DAQ.cfgW 0).1
      = DAQ.cfgW.enum.flatMap
          (fun ar => ar.2.filterMap (DAQ.specWrite DAQ.addrW ar.1))
    ∧ (DAQ.runCfg DAQ.addrW (fun _ => true) 0 DAQ.cfgW 0).2.2 = true :=
  config_pass_register_writes DAQ.addrW DAQ.cfgW (fun _ => true) 0
    (by
      simp only [DAQ.goodKV]
      decide)
